import Mathlib

/-!
Shallow embedding of the document-discovery and ranking engine of the
`fiscal-test` repository (Python), together with proofs about it.

Python strings are modelled as Lean `String`s whose `data` field (a
`List Char`) carries the semantics; Python's `in`, `startswith`,
`endswith`, `lower` and truthiness are modelled by the `py*` helpers
below.  Python `None`-able values are `Option`s.  Stateful code
(`HTMLPageProcessor`'s crawl loop, `HTTPClient.make_request`) is
embedded as explicit state passing with the network abstracted as an
oracle function.
-/

namespace Fiscal

/-! ### Python string primitives -/

/-- Python `sub in s` (substring containment). -/
def pyIn (sub s : String) : Bool := decide (sub.data <:+: s.data)

/-- Python `s.lower()` (the strings in this development are ASCII, where
`Char.toLower` agrees with Python). -/
def pyLower (s : String) : String := ⟨s.data.map Char.toLower⟩

/-- Python `s.endswith(suffix)`. -/
def pyEndsWith (s suffix : String) : Bool := decide (suffix.data <:+ s.data)

/-- Python `s.startswith(pre)`. -/
def pyStartsWith (s pre : String) : Bool := decide (pre.data <+: s.data)

/-- Truthiness of a Python `Optional[str]`: `None` and `""` are falsy. -/
def pyTruthy (o : Option String) : Bool :=
  match o with
  | none => false
  | some s => !s.data.isEmpty

/-- Truthiness of a Python `Optional[int]`: `None` and `0` are falsy. -/
def pyTruthyInt (o : Option Nat) : Bool :=
  match o with
  | none => false
  | some n => n != 0

/-- Python `a or b` on `Optional[int]` values (used for year fields). -/
def pyOrYear (a b : Option Nat) : Option Nat :=
  if pyTruthyInt a then a else b

/-- Python `a or b` where `a : Optional[str]` and `b : str`. -/
def pyOrStr (a : Option String) (b : String) : String :=
  match a with
  | some s => if s.data.isEmpty then b else s
  | none => b

/-! ### Keyword lists (`HTMLPageProcessor._get_quarterly_keywords`,
`HTMLPageProcessor._get_annual_keywords`) -/

/-- `HTMLPageProcessor._get_quarterly_keywords`. -/
def quarterly_keywords : List String :=
  ["q1", "q2", "q3", "q4",
   "h1", "h2", "h3", "h4",
   "quarterly", "quarter", "half yearly",
   "half year", "half-yearly", "half-year", "half"]

/-- `HTMLPageProcessor._get_annual_keywords`. -/
def annual_keywords : List String :=
  ["annual", "yearly", "year-end", "annual-report", "annual_report", "financial-report",
   "financial statements", "consolidated", "statements", "integrated",
   "balance sheet", "income statement", "cash flow", "profit and loss",
   "p&l", "accounts", "financial report", "balance", "income", "cash",
   "profit", "loss", "sheet", "flow", "report", "financial"]

/-! ### `HTMLPageProcessor._is_quarter_report` and `_is_annual_report`

`_is_quarter_report(link, url)` reads `link.get_text(strip=True).lower()`
when a link object is passed and `""` otherwise; a link object is
modelled by `some t` where `t` is its (stripped) text.  In
`_is_annual_report` the `text` parameter is never supplied at any call
site (`link=`, `url=` and `filename=` are), so `linkText` below plays
the role of both the legacy `link` argument and the derived `text`. -/

/-- `HTMLPageProcessor._is_quarter_report`. -/
def is_quarter_report (linkText url : Option String) : Bool :=
  let link_text := pyLower (linkText.getD "")
  let url_lower := pyLower (url.getD "")
  quarterly_keywords.any (fun keyword => pyIn keyword link_text || pyIn keyword url_lower)

/-- `HTMLPageProcessor._is_annual_report`.  `linkText = some t` models a
call with `link=` whose `get_text(strip=True)` is `t`; the unused `text=`
parameter is folded into it. -/
def is_annual_report (linkText url filename : Option String) : Bool :=
  if is_quarter_report linkText url then false
  else if pyTruthy filename &&
      quarterly_keywords.any (fun keyword => pyIn keyword (pyLower (filename.getD ""))) then
    false
  else
    -- all_text: lowered text sources, in the order text, url, filename
    let all_text :=
      (if pyTruthy linkText then [pyLower (linkText.getD "")] else []) ++
      (if pyTruthy url then [pyLower (url.getD "")] else []) ++
      (if pyTruthy filename then [pyLower (filename.getD "")] else [])
    if pyTruthy filename &&
        !(pyEndsWith (pyLower (filename.getD "")) ".pdf" ||
          pyEndsWith (pyLower (filename.getD "")) ".xlsx") then
      false
    else if pyTruthy url && !pyTruthy filename &&
        !(pyEndsWith (pyLower (url.getD "")) ".pdf" ||
          pyEndsWith (pyLower (url.getD "")) ".xlsx") then
      false
    else
      annual_keywords.any (fun keyword => all_text.any (fun t => pyIn keyword t))

/-! ### `HTMLPageProcessor._extract_year_from_text`

`re.findall(r'(20\d{2})', text)` scans left to right for non-overlapping
occurrences of `20` followed by two digits. -/

/-- The regex class `\d` restricted to ASCII (codepoints 48-57). -/
def pyIsDigit (c : Char) : Bool := 48 ≤ c.toNat && c.toNat ≤ 57

/-- Non-overlapping left-to-right scan for `20\d{2}` matches, as
`re.findall` performs. -/
def yearScanAux : Nat → List Char → List Nat
  | 0, _ => []
  | _ + 1, [] => []
  | fuel + 1, c1 :: rest =>
    match rest with
    | c2 :: c3 :: c4 :: rest' =>
      if c1 = '2' ∧ c2 = '0' ∧ pyIsDigit c3 ∧ pyIsDigit c4 then
        (2000 + 10 * (c3.toNat - '0'.toNat) + (c4.toNat - '0'.toNat)) :: yearScanAux fuel rest'
      else
        -- no match starting here: advance one character
        yearScanAux fuel rest
    | _ => []  -- fewer than 4 characters left: no further match is possible

/-- The scan consumes at least one character per step, so `length` fuel
always suffices; the fuel only makes the recursion structural. -/
def yearScan (cs : List Char) : List Nat := yearScanAux cs.length cs

/-- `HTMLPageProcessor._extract_year_from_text`. -/
def extract_year_from_text (text : String) : Option Nat :=
  let year_matches := yearScan text.data
  if year_matches.isEmpty then none
  else
    let valid_years := year_matches.filter (fun y => 2000 ≤ y && y ≤ 2099)
    if valid_years.isEmpty then none
    else if valid_years.length > 1 then valid_years.getLast?
    else valid_years.head?

/-- `HTMLPageProcessor._extract_year_from_filename` (delegates). -/
def extract_year_from_filename (filename : String) : Option Nat :=
  extract_year_from_text filename

/-! ### Claims C2 and C3 -/

theorem pyIn_iff {sub s : String} : pyIn sub s = true ↔ sub.data <:+: s.data := by
  simp [pyIn]

/-- A quarterly/interim marker occurs in `s` (case-insensitive substring). -/
def hasQuarterlyMarker (s : String) : Bool :=
  quarterly_keywords.any (fun k => pyIn k (pyLower s))

theorem quarterly_keywords_ne_nil : ∀ k ∈ quarterly_keywords, k.data ≠ [] := by decide

theorem is_quarter_report_of_marker {linkText url : Option String} {k : String}
    (hk : k ∈ quarterly_keywords)
    (h : pyIn k (pyLower (linkText.getD "")) = true ∨ pyIn k (pyLower (url.getD "")) = true) :
    is_quarter_report linkText url = true := by
  simp only [is_quarter_report, List.any_eq_true, Bool.or_eq_true]
  exact ⟨k, hk, h⟩

theorem is_annual_report_false_of_quarter {linkText url filename : Option String}
    (h : is_quarter_report linkText url = true) :
    is_annual_report linkText url filename = false := by
  simp [is_annual_report, h]

theorem is_annual_report_false_of_filename_marker {linkText url : Option String} {f k : String}
    (hk : k ∈ quarterly_keywords) (h : pyIn k (pyLower f) = true) :
    is_annual_report linkText url (some f) = false := by
  by_cases hq : is_quarter_report linkText url = true
  · exact is_annual_report_false_of_quarter hq
  · have hf : ¬ f.data.isEmpty := by
      intro hnil
      have hinf : k.data <:+: (pyLower f).data := pyIn_iff.mp h
      have : (pyLower f).data = [] := by
        simp only [pyLower]
        simpa [List.map_eq_nil_iff] using List.isEmpty_iff.mp hnil
      rw [this] at hinf
      exact quarterly_keywords_ne_nil k hk (List.infix_nil.mp hinf)
    simp only [Bool.not_eq_true] at hq
    have hany : quarterly_keywords.any (fun keyword => pyIn keyword (pyLower f)) = true :=
      List.any_eq_true.mpr ⟨k, hk, h⟩
    simp [is_annual_report, hq, pyTruthy, hf, hany]

/-- C2: if any quarterly/interim-period marker occurs (as a case-insensitive
substring) in the link text, the URL, or the filename handed to
`_is_annual_report`, the annual-report candidate check returns `false`,
regardless of any annual keywords also present. -/
theorem quarterly_rejection_precedence (linkText url filename : Option String)
    (h : (∃ t, linkText = some t ∧ hasQuarterlyMarker t = true) ∨
         (∃ u, url = some u ∧ hasQuarterlyMarker u = true) ∨
         (∃ f, filename = some f ∧ hasQuarterlyMarker f = true)) :
    is_annual_report linkText url filename = false := by
  rcases h with ⟨t, rfl, ht⟩ | ⟨u, rfl, hu⟩ | ⟨f, rfl, hf⟩
  · obtain ⟨k, hk, hkt⟩ := List.any_eq_true.mp ht
    exact is_annual_report_false_of_quarter (is_quarter_report_of_marker hk (Or.inl hkt))
  · obtain ⟨k, hk, hku⟩ := List.any_eq_true.mp hu
    exact is_annual_report_false_of_quarter (is_quarter_report_of_marker hk (Or.inr hku))
  · obtain ⟨k, hk, hkf⟩ := List.any_eq_true.mp hf
    exact is_annual_report_false_of_filename_marker hk hkf

/-- Witness for C2: a URL containing both "annual" and "q3" is rejected. -/
theorem quarterly_rejection_precedence_witness :
    is_annual_report (some "Annual Report") (some "https://x.com/annual_q3_2020.pdf") none
      = false :=
  quarterly_rejection_precedence _ _ _ (Or.inr (Or.inl ⟨_, rfl, by decide⟩))

theorem yearScanAux_range :
    ∀ (n : Nat) (cs : List Char) (y : Nat), y ∈ yearScanAux n cs → 2000 ≤ y ∧ y ≤ 2099 := by
  intro n
  induction n with
  | zero => intro cs y hy; simp [yearScanAux] at hy
  | succ m ih =>
    intro cs y hy
    match cs with
    | [] => simp [yearScanAux] at hy
    | c1 :: rest =>
      match rest with
      | c2 :: c3 :: c4 :: rest' =>
        rw [yearScanAux] at hy
        split at hy
        · rename_i hcond
          obtain ⟨-, -, h3, h4⟩ := hcond
          rcases List.mem_cons.mp hy with rfl | hy'
          · have b3 := h3
            have b4 := h4
            simp only [pyIsDigit, Bool.and_eq_true, decide_eq_true_eq] at b3 b4
            have h0 : '0'.toNat = 48 := by decide
            omega
          · exact ih _ _ hy'
        · exact ih _ _ hy
      | [] => simp [yearScanAux] at hy
      | [c2] => simp [yearScanAux] at hy
      | [c2, c3] => simp [yearScanAux] at hy

theorem yearScan_filter_eq (cs : List Char) :
    (yearScan cs).filter (fun y => 2000 ≤ y && y ≤ 2099) = yearScan cs := by
  apply List.filter_eq_self.mpr
  intro y hy
  have h := yearScanAux_range _ _ _ hy
  simp only [Bool.and_eq_true, decide_eq_true_eq]
  omega

/-- Every `20\d{2}` match already lies in `[2000, 2099]`, so the extractor
returns exactly the last match of the scan (or `none` if there is none). -/
theorem extract_year_eq_getLast (t : String) :
    extract_year_from_text t = (yearScan t.data).getLast? := by
  unfold extract_year_from_text
  dsimp only
  rw [yearScan_filter_eq]
  match h : yearScan t.data with
  | [] => simp
  | [a] => simp
  | a :: b :: l => simp [List.isEmpty_cons]

/-- C3: year extraction scans for `20\d{2}` tokens (which are exactly the
4-digit values in `[2000, 2099]`), returns the last occurrence of the
scan (multiple matches resolve to the last one), on the three specified
examples behaves as stated, and any extracted year lies in
`[2000, 2099]`. -/
theorem year_extraction_correct :
    extract_year_from_text "20190326-Annual_Report_2018.pdf" = some 2018 ∧
    extract_year_from_text "Report.pdf" = none ∧
    extract_year_from_text "AR_2021.xlsx" = some 2021 ∧
    (∀ t, extract_year_from_text t = (yearScan t.data).getLast?) ∧
    (∀ t y, extract_year_from_text t = some y → 2000 ≤ y ∧ y ≤ 2099) := by
  refine ⟨by decide, by decide, by decide, extract_year_eq_getLast, ?_⟩
  intro t y h
  rw [extract_year_eq_getLast] at h
  exact yearScanAux_range _ _ _ (List.mem_of_getLast?_eq_some h)

/-- Witness for C3: the universal range clause applied at a concrete input. -/
theorem year_extraction_correct_witness : 2000 ≤ 2021 ∧ 2021 ≤ 2099 :=
  year_extraction_correct.2.2.2.2 "AR_2021.xlsx" 2021 (by decide)

/-! ### Data model (`pkg/models.py`) -/

/-- `ExtractedDocument` from `pkg/models.py` (year is `Optional[int]`). -/
structure ExtractedDocument where
  url : String
  title : String
  content : String
  year : Option Nat
deriving DecidableEq, Repr

/-! ### `ReportsRanker` (`pkg/reports_ranker.py`) -/

/-- `ReportsRanker.priority_keywords` (highest to lowest priority). -/
def priority_keywords : List String :=
  ["form 20f", "20-f", "20f", "form20f",
   "annual report", "annual", "yearly",
   "financial report", "consolidated",
   "statements", "accounts"]

/-- Quarterly keywords used by `_calculate_report_score` (a shorter list
than the crawler's). -/
def ranker_quarterly_keywords : List String :=
  ["q1", "q2", "q3", "q4", "quarterly", "quarter"]

/-- The `for i, keyword in enumerate(...): if ...: score += (len - i) * 10; break`
loop: only the first matching keyword contributes; `n` carries
`len(priority_keywords) - i`. -/
def priorityBonusAux (hit : String → Bool) : List String → Nat → Int
  | [], _ => 0
  | k :: ks, n => if hit k then (n : Int) * 10 else priorityBonusAux hit ks (n - 1)

/-- `ReportsRanker._calculate_report_score`. -/
def calculate_report_score (report : ExtractedDocument) : Int :=
  let title := pyLower report.title
  let url := pyLower report.url
  let score : Int := 0
  -- File type priority: XLSX > PDF
  let score := score +
    (if pyEndsWith url ".xlsx" then 200 else if pyEndsWith url ".pdf" then 100 else 0)
  -- Base score from priority keywords (first match only)
  let score := score +
    priorityBonusAux (fun k => pyIn k title || pyIn k url) priority_keywords
      priority_keywords.length
  -- Bonus points for specific indicators
  let score := score + (if pyIn "form" title && pyIn "20" title then 50 else 0)
  let score := score + (if pyIn "annual" title then 30 else 0)
  let score := score + (if pyIn "consolidated" title then 20 else 0)
  let score := score + (if pyIn "financial" title then 15 else 0)
  let score := score + (if pyIn "statements" title then 10 else 0)
  -- Penalty for transparency/disclosure reports
  let score := score - (if pyIn "transparency" title || pyIn "disclosure" title then 25 else 0)
  -- Heavy penalty per quarterly keyword found in title or URL
  let score := ranker_quarterly_keywords.foldl
    (fun acc k => if pyIn k title || pyIn k url then acc - 100 else acc) score
  score

/-- One insertion step of a stable descending sort on the score component:
the new element goes after all strictly greater scores and before equal
ones that were inserted later (i.e. that came later in the original list,
since `sortDesc` folds from the right). -/
def insertDesc (x : Int × ExtractedDocument) :
    List (Int × ExtractedDocument) → List (Int × ExtractedDocument)
  | [] => [x]
  | y :: ys => if y.1 > x.1 then y :: insertDesc x ys else x :: y :: ys

/-- `scored_reports.sort(key=lambda x: x[0], reverse=True)`: Python's sort
is stable; a stable descending sort by a total key is unique, so this
insertion sort is its model. -/
def sortDesc (l : List (Int × ExtractedDocument)) : List (Int × ExtractedDocument) :=
  l.foldr insertDesc []

/-- `ReportsRanker._rank_reports_for_year`. -/
def rank_reports_for_year (year_reports : List ExtractedDocument) :
    List (Int × ExtractedDocument) :=
  if year_reports.isEmpty then []
  else sortDesc (year_reports.map (fun report => (calculate_report_score report, report)))

/-- Appending a report to its year's group in the insertion-ordered dict
`reports_by_year` (a new key goes to the end). -/
def addToGroup (y : Nat) (d : ExtractedDocument) :
    List (Nat × List ExtractedDocument) → List (Nat × List ExtractedDocument)
  | [] => [(y, [d])]
  | (k, ds) :: rest => if k = y then (k, ds ++ [d]) :: rest else (k, ds) :: addToGroup y d rest

/-- One report of the `reports_by_year` grouping loop of
`rank_reports_for_company` (`if year:` keeps truthy years only — `None`
and `0` are dropped). -/
def groupStep (gs : List (Nat × List ExtractedDocument)) (report : ExtractedDocument) :
    List (Nat × List ExtractedDocument) :=
  match report.year with
  | some y => if y != 0 then addToGroup y report gs else gs
  | none => gs

/-- The `reports_by_year` dict of `rank_reports_for_company`. -/
def groupReportsByYear (reports : List ExtractedDocument) :
    List (Nat × List ExtractedDocument) :=
  reports.foldl groupStep []

/-- `ReportsRanker.rank_reports_for_company` (the ticker is only logged). -/
def rank_reports_for_company (reports : List ExtractedDocument) :
    List (Nat × List (Int × ExtractedDocument)) :=
  if reports.isEmpty then []
  else (groupReportsByYear reports).map (fun g => (g.1, rank_reports_for_year g.2))

/-- The per-year selection dict built by `select_best_reports`. -/
structure YearSelection where
  year : Nat
  best : List ExtractedDocument
  secondary : List ExtractedDocument
deriving DecidableEq, Repr

/-- The `{'years_covered': ..., 'reports': ...}` result of `select_best_reports`. -/
structure SelectionResult where
  years_covered : List Nat
  reports : List YearSelection
deriving DecidableEq, Repr

/-- Ascending insertion sort on `Nat` modelling Python `sorted(...)`. -/
def insertAsc (x : Nat) : List Nat → List Nat
  | [] => [x]
  | y :: ys => if x ≤ y then x :: y :: ys else y :: insertAsc x ys

/-- Python `sorted(keys)`. -/
def sortAsc (l : List Nat) : List Nat := l.foldr insertAsc []

/-- The body of `select_best_reports`' per-year block: best is the head,
secondary the next up to two entries of the ranked list. -/
def select_year_reports (year : Nat) (ranked : List (Int × ExtractedDocument)) :
    YearSelection :=
  match ranked with
  | [] => ⟨year, [], []⟩  -- not reached: the caller skips empty year lists
  | b :: rest =>
    match rest with
    | [] => ⟨year, [b.2], []⟩
    | s1 :: rest2 =>
      match rest2 with
      | [] => ⟨year, [b.2], [s1.2]⟩
      | s2 :: _ => ⟨year, [b.2], [s1.2, s2.2]⟩

/-- One year of the `select_best_reports` loop. -/
def selectStep (ranked_reports : List (Nat × List (Int × ExtractedDocument)))
    (acc : List YearSelection) (year : Nat) : List YearSelection :=
  match ranked_reports.lookup year with
  | none => acc  -- unreachable: every `year` comes from the dict's keys
  | some ranked_year_reports =>
    if ranked_year_reports.isEmpty then acc
    else acc ++ [select_year_reports year ranked_year_reports]

/-- `ReportsRanker.select_best_reports`. -/
def select_best_reports (ranked_reports : List (Nat × List (Int × ExtractedDocument))) :
    SelectionResult :=
  let years_covered := sortAsc (ranked_reports.map (fun g => g.1))
  ⟨years_covered, years_covered.foldl (selectStep ranked_reports) []⟩

/-- `ReportsRanker.process_company_reports`. -/
def process_company_reports (reports : List ExtractedDocument) : SelectionResult :=
  select_best_reports (rank_reports_for_company reports)

/-! ### `AnnualReportSearcher` year filtering (`processors/search_reports.py`) -/

/-- `AnnualReportSearcher._calculate_min_year`. -/
def calculate_min_year (current_year years_back : Nat) : Nat :=
  current_year - years_back - 1

/-- `AnnualReportSearcher._filter_documents_by_year` (`datetime.now().year`
is the `current_year` parameter). -/
def filter_documents_by_year (documents : List ExtractedDocument)
    (min_year current_year : Nat) : List ExtractedDocument :=
  documents.filter
    (fun doc =>
      match doc.year with
      | some y => y != 0 && (decide (min_year ≤ y) && decide (y < current_year))
      | none => false)

/-! ### Stable-sort lemmas for the ranker -/

theorem mem_insertDesc {x y : Int × ExtractedDocument} {l : List (Int × ExtractedDocument)} :
    y ∈ insertDesc x l ↔ y = x ∨ y ∈ l := by
  induction l with
  | nil => simp [insertDesc]
  | cons z zs ih =>
    by_cases h : z.1 > x.1
    · simp only [insertDesc, if_pos h, List.mem_cons, ih]
      tauto
    · simp only [insertDesc, if_neg h, List.mem_cons]

theorem insertDesc_perm (x : Int × ExtractedDocument) (l : List (Int × ExtractedDocument)) :
    List.Perm (insertDesc x l) (x :: l) := by
  induction l with
  | nil => simp [insertDesc]
  | cons z zs ih =>
    by_cases h : z.1 > x.1
    · simp only [insertDesc, if_pos h]
      exact (ih.cons z).trans (List.Perm.swap x z zs)
    · simp [insertDesc, if_neg h]

theorem sortDesc_perm (l : List (Int × ExtractedDocument)) : List.Perm (sortDesc l) l := by
  induction l with
  | nil => simp [sortDesc]
  | cons z zs ih =>
    have : sortDesc (z :: zs) = insertDesc z (sortDesc zs) := rfl
    rw [this]
    exact (insertDesc_perm z (sortDesc zs)).trans (ih.cons z)

theorem insertDesc_sorted {x : Int × ExtractedDocument} {l : List (Int × ExtractedDocument)}
    (h : l.Pairwise (fun a b => b.1 ≤ a.1)) :
    (insertDesc x l).Pairwise (fun a b => b.1 ≤ a.1) := by
  induction l with
  | nil => simp [insertDesc]
  | cons z zs ih =>
    rcases List.pairwise_cons.mp h with ⟨hz, hzs⟩
    by_cases hc : z.1 > x.1
    · simp only [insertDesc, if_pos hc]
      refine List.pairwise_cons.mpr ⟨?_, ih hzs⟩
      intro y hy
      rcases mem_insertDesc.mp hy with rfl | hy'
      · omega
      · exact hz y hy'
    · simp only [insertDesc, if_neg hc]
      refine List.pairwise_cons.mpr ⟨?_, h⟩
      intro y hy
      rcases List.mem_cons.mp hy with rfl | hy'
      · omega
      · have := hz y hy'
        omega

theorem sortDesc_sorted (l : List (Int × ExtractedDocument)) :
    (sortDesc l).Pairwise (fun a b => b.1 ≤ a.1) := by
  induction l with
  | nil => simp [sortDesc]
  | cons z zs ih => exact insertDesc_sorted ih

theorem filter_insertDesc (x : Int × ExtractedDocument) (l : List (Int × ExtractedDocument))
    (s : Int) :
    (insertDesc x l).filter (fun p => decide (p.1 = s)) =
      if x.1 = s then x :: l.filter (fun p => decide (p.1 = s))
      else l.filter (fun p => decide (p.1 = s)) := by
  induction l with
  | nil => by_cases hx : x.1 = s <;> simp [insertDesc, hx]
  | cons z zs ih =>
    by_cases hc : z.1 > x.1
    · simp only [insertDesc, if_pos hc]
      by_cases hz : z.1 = s
      · have hx : ¬ x.1 = s := by omega
        simp [List.filter_cons, hz, hx, ih]
      · simp [List.filter_cons, hz, ih]
    · simp only [insertDesc, if_neg hc]
      by_cases hx : x.1 = s <;> simp [List.filter_cons, hx]

/-- Stability of the model of Python's stable sort: for every score value,
the subsequence of entries carrying that score is preserved verbatim
(hence equal-score candidates keep their discovery order). -/
theorem sortDesc_stable (l : List (Int × ExtractedDocument)) (s : Int) :
    (sortDesc l).filter (fun p => decide (p.1 = s)) =
      l.filter (fun p => decide (p.1 = s)) := by
  induction l with
  | nil => simp [sortDesc]
  | cons z zs ih =>
    have hline : sortDesc (z :: zs) = insertDesc z (sortDesc zs) := rfl
    rw [hline, filter_insertDesc]
    by_cases hz : z.1 = s <;> simp [List.filter_cons, hz, ih]

/-! ### Claim C5 -/

/-- C5: ranking is deterministic with a stable, discovery-order tie-break:
(i) each year's ranked list is sorted descending by score, (ii) entries
of any fixed score appear in exactly their original (discovery) order,
and (iii) for two candidates of one year with identical computed scores,
discovered in order `A` then `B`, the selection takes `A` as best (and
`B` as the first secondary). -/
theorem ranking_deterministic_stable_tie_break :
    (∀ l : List ExtractedDocument,
        (rank_reports_for_year l).Pairwise (fun a b => b.1 ≤ a.1)) ∧
    (∀ (l : List (Int × ExtractedDocument)) (s : Int),
        (sortDesc l).filter (fun p => decide (p.1 = s)) =
          l.filter (fun p => decide (p.1 = s))) ∧
    (∀ (A B : ExtractedDocument) (y : Nat),
        calculate_report_score A = calculate_report_score B →
        A.year = some y → B.year = some y → y ≠ 0 →
        process_company_reports [A, B] = ⟨[y], [⟨y, [A], [B]⟩]⟩) := by
  refine ⟨?_, sortDesc_stable, ?_⟩
  · intro l
    unfold rank_reports_for_year
    by_cases h : l.isEmpty <;> simp [h, sortDesc_sorted]
  · intro A B y hscore hA hB hy
    have hsort :
        insertDesc (calculate_report_score A, A) [(calculate_report_score B, B)] =
          [(calculate_report_score A, A), (calculate_report_score B, B)] := by
      unfold insertDesc
      rw [if_neg]
      simp only [hscore]
      omega
    have hsort0 :
        insertDesc (calculate_report_score B, B) [] = [(calculate_report_score B, B)] := rfl
    simp [process_company_reports, rank_reports_for_company, groupReportsByYear, groupStep,
      addToGroup, hA, hB, hy, rank_reports_for_year, sortDesc, List.foldr, hsort0, hsort,
      select_best_reports, selectStep, sortAsc, insertAsc, List.lookup, select_year_reports]

/-- Witness for C5: two concrete equal-score candidates (differing only in
a field the score ignores); the first-discovered one is selected best. -/
theorem ranking_deterministic_stable_tie_break_witness :
    process_company_reports
        [⟨"https://c.example.com/ar.pdf", "Annual Report", "", some 2020⟩,
         ⟨"https://c.example.com/ar.pdf", "Annual Report", "copy", some 2020⟩] =
      ⟨[2020],
       [⟨2020, [⟨"https://c.example.com/ar.pdf", "Annual Report", "", some 2020⟩],
         [⟨"https://c.example.com/ar.pdf", "Annual Report", "copy", some 2020⟩]⟩]⟩ :=
  ranking_deterministic_stable_tie_break.2.2 _ _ 2020 (by decide) rfl rfl (by decide)

/-! ### Grouping and selection lemmas (for C6 and C10) -/

theorem lookup_mem {β : Type} {l : List (Nat × β)} {y : Nat} {v : β}
    (h : l.lookup y = some v) : (y, v) ∈ l := by
  induction l with
  | nil => simp [List.lookup] at h
  | cons p rest ih =>
    obtain ⟨k, b⟩ := p
    by_cases hk : y = k
    · subst hk
      simp only [List.lookup, beq_self_eq_true] at h
      cases h
      exact List.mem_cons_self _ _
    · have hbeq : (y == k) = false := beq_eq_false_iff_ne.mpr hk
      simp only [List.lookup, hbeq] at h
      exact List.mem_cons_of_mem _ (ih h)

theorem lookup_eq_some_of_mem_nodup {β : Type} {l : List (Nat × β)} {y : Nat} {v : β}
    (hnd : (l.map (fun p => p.1)).Nodup) (hm : (y, v) ∈ l) : l.lookup y = some v := by
  induction l with
  | nil => simp at hm
  | cons p rest ih =>
    obtain ⟨k, b⟩ := p
    rcases List.mem_cons.mp hm with heq | htl
    · cases heq
      simp [List.lookup]
    · have hk : y ≠ k := by
        intro rfl'
        subst rfl'
        have : y ∈ rest.map (fun p => p.1) := List.mem_map.mpr ⟨(y, v), htl, rfl⟩
        exact (List.nodup_cons.mp hnd).1 this
      have hbeq : (y == k) = false := beq_eq_false_iff_ne.mpr hk
      simp only [List.lookup, hbeq]
      exact ih (List.nodup_cons.mp hnd).2 htl

theorem mem_insertAsc {x y : Nat} {l : List Nat} : y ∈ insertAsc x l ↔ y = x ∨ y ∈ l := by
  induction l with
  | nil => simp [insertAsc]
  | cons z zs ih =>
    by_cases h : x ≤ z
    · simp [insertAsc, if_pos h]
    · simp only [insertAsc, if_neg h, List.mem_cons, ih]
      tauto

theorem mem_sortAsc {y : Nat} {l : List Nat} : y ∈ sortAsc l ↔ y ∈ l := by
  induction l with
  | nil => simp [sortAsc]
  | cons z zs ih =>
    have : sortAsc (z :: zs) = insertAsc z (sortAsc zs) := rfl
    rw [this]
    simp [mem_insertAsc, ih]

theorem addToGroup_keys (y : Nat) (d : ExtractedDocument)
    (gs : List (Nat × List ExtractedDocument)) :
    (addToGroup y d gs).map (fun g => g.1) =
      if y ∈ gs.map (fun g => g.1) then gs.map (fun g => g.1)
      else gs.map (fun g => g.1) ++ [y] := by
  induction gs with
  | nil => simp [addToGroup]
  | cons g rest ih =>
    obtain ⟨k, ds⟩ := g
    by_cases hk : k = y
    · subst hk
      simp [addToGroup]
    · have hky : ¬ y = k := fun h => hk h.symm
      simp only [addToGroup, if_neg hk, List.map_cons, ih, List.mem_cons]
      by_cases hmem : y ∈ rest.map (fun g => g.1) <;> simp [hmem, hky]

theorem addToGroup_keys_nodup {y : Nat} {d : ExtractedDocument}
    {gs : List (Nat × List ExtractedDocument)} (h : (gs.map (fun g => g.1)).Nodup) :
    ((addToGroup y d gs).map (fun g => g.1)).Nodup := by
  rw [addToGroup_keys]
  by_cases hmem : y ∈ gs.map (fun g => g.1)
  · simpa [hmem] using h
  · simp [hmem, List.nodup_append, h]

theorem addToGroup_entries {y : Nat} {d : ExtractedDocument}
    {gs : List (Nat × List ExtractedDocument)} (hy : y ≠ 0) (hd : d.year = some y)
    (h : ∀ g ∈ gs, g.2 ≠ [] ∧ g.1 ≠ 0 ∧ ∀ r ∈ g.2, r.year = some g.1) :
    ∀ g ∈ addToGroup y d gs, g.2 ≠ [] ∧ g.1 ≠ 0 ∧ ∀ r ∈ g.2, r.year = some g.1 := by
  induction gs with
  | nil =>
    intro g hg
    simp only [addToGroup, List.mem_singleton] at hg
    subst hg
    exact ⟨by simp, hy, by simpa using hd⟩
  | cons g0 rest ih =>
    obtain ⟨k, ds⟩ := g0
    intro g hg
    simp only [addToGroup] at hg
    by_cases hk : k = y
    · rw [if_pos hk] at hg
      rcases List.mem_cons.mp hg with rfl | htl
      · obtain ⟨-, hk0, hall⟩ := h (k, ds) (List.mem_cons_self _ _)
        refine ⟨by simp, hk0, ?_⟩
        intro r hr
        rcases List.mem_append.mp hr with hr' | hr'
        · exact hall r hr'
        · rw [List.mem_singleton.mp hr', hd, hk]
      · exact h g (List.mem_cons_of_mem _ htl)
    · rw [if_neg hk] at hg
      rcases List.mem_cons.mp hg with rfl | htl
      · exact h _ (List.mem_cons_self _ _)
      · exact ih (fun g' hg' => h g' (List.mem_cons_of_mem _ hg')) g htl

theorem flatten_addToGroup (y : Nat) (d : ExtractedDocument)
    (gs : List (Nat × List ExtractedDocument)) :
    List.Perm ((addToGroup y d gs).map (fun g => g.2)).flatten
      ((gs.map (fun g => g.2)).flatten ++ [d]) := by
  induction gs with
  | nil => simp [addToGroup]
  | cons g rest ih =>
    obtain ⟨k, ds⟩ := g
    by_cases hk : k = y
    · simp only [addToGroup, if_pos hk, List.map_cons, List.flatten_cons]
      rw [List.append_assoc, List.append_assoc]
      exact List.Perm.append_left ds (List.perm_append_comm)
    · simp only [addToGroup, if_neg hk, List.map_cons, List.flatten_cons]
      rw [List.append_assoc]
      exact List.Perm.append_left ds ih

theorem foldl_groupStep_flatten :
    ∀ (docs : List ExtractedDocument) (gs : List (Nat × List ExtractedDocument)),
      List.Perm ((docs.foldl groupStep gs).map (fun g => g.2)).flatten
        ((gs.map (fun g => g.2)).flatten ++
          docs.filter (fun d => pyTruthyInt d.year)) := by
  intro docs
  induction docs with
  | nil => intro gs; simp
  | cons d ds ih =>
    intro gs
    have step : (d :: ds).foldl groupStep gs = ds.foldl groupStep (groupStep gs d) := rfl
    rw [step]
    match hd : d.year with
    | none =>
      have hg : groupStep gs d = gs := by simp [groupStep, hd]
      have ht : pyTruthyInt d.year = false := by simp [pyTruthyInt, hd]
      rw [hg]
      simpa [List.filter_cons, ht] using ih gs
    | some y =>
      by_cases hy : y = 0
      · subst hy
        have hg : groupStep gs d = gs := by simp [groupStep, hd]
        have ht : pyTruthyInt d.year = false := by simp [pyTruthyInt, hd]
        rw [hg]
        simpa [List.filter_cons, ht] using ih gs
      · have hg : groupStep gs d = addToGroup y d gs := by simp [groupStep, hd, hy]
        have ht : pyTruthyInt d.year = true := by simp [pyTruthyInt, hd, hy]
        rw [hg]
        refine (ih (addToGroup y d gs)).trans ?_
        rw [List.filter_cons, if_pos ht]
        refine (List.Perm.append_right _ (flatten_addToGroup y d gs)).trans ?_
        rw [List.append_assoc]
        rfl

theorem groupReportsByYear_flatten (docs : List ExtractedDocument) :
    List.Perm ((groupReportsByYear docs).map (fun g => g.2)).flatten
      (docs.filter (fun d => pyTruthyInt d.year)) := by
  simpa [groupReportsByYear] using foldl_groupStep_flatten docs []

theorem groupReportsByYear_entries (docs : List ExtractedDocument) :
    ∀ g ∈ groupReportsByYear docs,
      g.2 ≠ [] ∧ g.1 ≠ 0 ∧ ∀ r ∈ g.2, r.year = some g.1 := by
  suffices h : ∀ (ds : List ExtractedDocument) (gs : List (Nat × List ExtractedDocument)),
      (∀ g ∈ gs, g.2 ≠ [] ∧ g.1 ≠ 0 ∧ ∀ r ∈ g.2, r.year = some g.1) →
      ∀ g ∈ ds.foldl groupStep gs, g.2 ≠ [] ∧ g.1 ≠ 0 ∧ ∀ r ∈ g.2, r.year = some g.1 by
    exact h docs [] (by simp)
  intro ds
  induction ds with
  | nil => intro gs hgs; exact hgs
  | cons d ds' ih =>
    intro gs hgs
    have step : (d :: ds').foldl groupStep gs = ds'.foldl groupStep (groupStep gs d) := rfl
    rw [step]
    apply ih
    match hd : d.year with
    | none => simpa [groupStep, hd] using hgs
    | some y =>
      by_cases hy : y = 0
      · subst hy; simpa [groupStep, hd] using hgs
      · have hg : groupStep gs d = addToGroup y d gs := by simp [groupStep, hd, hy]
        rw [hg]
        exact addToGroup_entries hy hd hgs

theorem groupReportsByYear_keys_nodup (docs : List ExtractedDocument) :
    ((groupReportsByYear docs).map (fun g => g.1)).Nodup := by
  suffices h : ∀ (ds : List ExtractedDocument) (gs : List (Nat × List ExtractedDocument)),
      (gs.map (fun g => g.1)).Nodup →
      ((ds.foldl groupStep gs).map (fun g => g.1)).Nodup by
    exact h docs [] (by simp)
  intro ds
  induction ds with
  | nil => intro gs hgs; exact hgs
  | cons d ds' ih =>
    intro gs hgs
    have step : (d :: ds').foldl groupStep gs = ds'.foldl groupStep (groupStep gs d) := rfl
    rw [step]
    apply ih
    match hd : d.year with
    | none => simpa [groupStep, hd] using hgs
    | some y =>
      by_cases hy : y = 0
      · subst hy; simpa [groupStep, hd] using hgs
      · have hg : groupStep gs d = addToGroup y d gs := by simp [groupStep, hd, hy]
        rw [hg]
        exact addToGroup_keys_nodup hgs

theorem sublist_flatten {α : Type} {L : List (List α)} {l : List α} (h : l ∈ L) :
    l.Sublist L.flatten := by
  induction L with
  | nil => simp at h
  | cons l0 rest ih =>
    rcases List.mem_cons.mp h with rfl | htl
    · simp only [List.flatten_cons]
      exact List.sublist_append_left l (rest.flatten)
    · refine (ih htl).trans ?_
      simp only [List.flatten_cons]
      exact List.sublist_append_right l0 (rest.flatten)

theorem group_list_nodup {docs : List ExtractedDocument}
    {g : Nat × List ExtractedDocument} (hnd : docs.Nodup)
    (hg : g ∈ groupReportsByYear docs) : g.2.Nodup := by
  have hflat : (((groupReportsByYear docs).map (fun g => g.2)).flatten).Nodup :=
    ((groupReportsByYear_flatten docs).nodup_iff).mpr (hnd.filter _)
  have hsub : g.2.Sublist (((groupReportsByYear docs).map (fun g => g.2)).flatten) :=
    sublist_flatten (List.mem_map.mpr ⟨g, hg, rfl⟩)
  exact hsub.nodup hflat

theorem mem_group_of_mem_filter {docs : List ExtractedDocument} {d : ExtractedDocument}
    (h : d ∈ docs.filter (fun d => pyTruthyInt d.year)) :
    ∃ g ∈ groupReportsByYear docs, d ∈ g.2 := by
  have : d ∈ (((groupReportsByYear docs).map (fun g => g.2)).flatten) :=
    ((groupReportsByYear_flatten docs).mem_iff).mpr h
  obtain ⟨l, hl, hdl⟩ := List.mem_flatten.mp this
  obtain ⟨g, hg, rfl⟩ := List.mem_map.mp hl
  exact ⟨g, hg, hdl⟩

theorem mem_docs_of_mem_group {docs : List ExtractedDocument}
    {g : Nat × List ExtractedDocument} {d : ExtractedDocument}
    (hg : g ∈ groupReportsByYear docs) (hd : d ∈ g.2) : d ∈ docs := by
  have : d ∈ (((groupReportsByYear docs).map (fun g => g.2)).flatten) :=
    List.mem_flatten.mpr ⟨g.2, List.mem_map.mpr ⟨g, hg, rfl⟩, hd⟩
  have := ((groupReportsByYear_flatten docs).mem_iff).mp this
  exact List.mem_of_mem_filter this

/-! ### Ranked-list and selection lemmas -/

theorem rank_mem {ds : List ExtractedDocument} {p : Int × ExtractedDocument}
    (hp : p ∈ rank_reports_for_year ds) :
    p.2 ∈ ds ∧ p.1 = calculate_report_score p.2 := by
  unfold rank_reports_for_year at hp
  by_cases h : ds.isEmpty
  · simp [h] at hp
  · rw [if_neg h] at hp
    have hp' := (sortDesc_perm _).mem_iff.mp hp
    obtain ⟨r, hr, hpr⟩ := List.mem_map.mp hp'
    cases hpr
    exact ⟨hr, rfl⟩

theorem rank_sorted_desc (ds : List ExtractedDocument) :
    (rank_reports_for_year ds).Pairwise (fun a b => b.1 ≤ a.1) := by
  unfold rank_reports_for_year
  by_cases h : ds.isEmpty <;> simp [h, sortDesc_sorted]

theorem rank_snd_perm {ds : List ExtractedDocument} (h : ¬ ds.isEmpty = true) :
    List.Perm ((rank_reports_for_year ds).map (fun p => p.2)) ds := by
  unfold rank_reports_for_year
  rw [if_neg h]
  have h1 : List.Perm ((sortDesc (ds.map fun r => (calculate_report_score r, r))).map
      (fun p => p.2)) ((ds.map fun r => (calculate_report_score r, r)).map (fun p => p.2)) :=
    (sortDesc_perm _).map _
  have h2 : ∀ l : List ExtractedDocument,
      (l.map fun r => (calculate_report_score r, r)).map (fun p => p.2) = l := by
    intro l
    induction l with
    | nil => rfl
    | cons a t ih => simp only [List.map_cons, ih]
  rw [h2 ds] at h1
  exact h1

theorem rank_ne_nil {ds : List ExtractedDocument} (h : ds ≠ []) :
    rank_reports_for_year ds ≠ [] := by
  have hne : ¬ ds.isEmpty = true := by simp [List.isEmpty_iff, h]
  intro hc
  have := (rank_snd_perm hne).length_eq
  rw [hc] at this
  simp only [List.map_nil, List.length_nil] at this
  exact h (List.length_eq_zero.mp this.symm)

theorem select_year_reports_year (y : Nat) (rs : List (Int × ExtractedDocument)) :
    (select_year_reports y rs).year = y := by
  match rs with
  | [] => rfl
  | [b] => rfl
  | [b, s1] => rfl
  | b :: s1 :: s2 :: rest => rfl

theorem select_year_reports_spec {y : Nat} {rs : List (Int × ExtractedDocument)}
    (hne : rs ≠ [])
    (hsorted : rs.Pairwise (fun a b => b.1 ≤ a.1))
    (hlink : ∀ p ∈ rs, p.1 = calculate_report_score p.2) :
    (select_year_reports y rs).best.length = 1 ∧
    (select_year_reports y rs).secondary.length ≤ 2 ∧
    (∀ d ∈ (select_year_reports y rs).best ++ (select_year_reports y rs).secondary,
        ∃ p ∈ rs, p.2 = d) ∧
    List.Pairwise (fun a b => calculate_report_score b ≤ calculate_report_score a)
      ((select_year_reports y rs).best ++ (select_year_reports y rs).secondary) ∧
    ((rs.map (fun p => p.2)).Nodup →
      ((select_year_reports y rs).best ++ (select_year_reports y rs).secondary).Nodup) := by
  match rs with
  | [] => exact absurd rfl hne
  | [b] =>
    refine ⟨rfl, by simp [select_year_reports], ?_, ?_, ?_⟩
    · intro d hd
      simp only [select_year_reports, List.append_nil, List.mem_singleton] at hd
      exact ⟨b, by simp, hd.symm⟩
    · simp [select_year_reports]
    · intro _
      simp [select_year_reports]
  | [b, s1] =>
    have h1 : s1.1 ≤ b.1 := by
      have := List.pairwise_cons.mp hsorted
      exact this.1 s1 (List.mem_singleton.mpr rfl)
    refine ⟨rfl, by simp [select_year_reports], ?_, ?_, ?_⟩
    · intro d hd
      simp only [select_year_reports, List.cons_append, List.nil_append,
        List.mem_cons, List.not_mem_nil, or_false] at hd
      rcases hd with rfl | rfl
      · exact ⟨b, by simp, rfl⟩
      · exact ⟨s1, by simp, rfl⟩
    · have hb := hlink b (by simp)
      have hs1 := hlink s1 (by simp)
      simp only [select_year_reports, List.cons_append, List.nil_append]
      refine List.pairwise_cons.mpr ⟨?_, by simp⟩
      intro d hd
      rw [List.mem_singleton.mp hd]
      rw [← hb, ← hs1]
      exact h1
    · intro hnd
      simp only [select_year_reports, List.cons_append, List.nil_append]
      simpa using hnd
  | b :: s1 :: s2 :: rest =>
    have hp1 := List.pairwise_cons.mp hsorted
    have hp2 := List.pairwise_cons.mp hp1.2
    have hb1 : s1.1 ≤ b.1 := hp1.1 s1 (by simp)
    have hb2 : s2.1 ≤ b.1 := hp1.1 s2 (by simp)
    have h12 : s2.1 ≤ s1.1 := hp2.1 s2 (by simp)
    have hb := hlink b (by simp)
    have hs1 := hlink s1 (by simp)
    have hs2 := hlink s2 (by simp)
    refine ⟨rfl, by simp [select_year_reports], ?_, ?_, ?_⟩
    · intro d hd
      simp only [select_year_reports, List.cons_append, List.nil_append,
        List.mem_cons, List.not_mem_nil, or_false] at hd
      rcases hd with rfl | rfl | rfl
      · exact ⟨b, by simp, rfl⟩
      · exact ⟨s1, by simp, rfl⟩
      · exact ⟨s2, by simp, rfl⟩
    · simp only [select_year_reports, List.cons_append, List.nil_append]
      refine List.pairwise_cons.mpr ⟨?_, List.pairwise_cons.mpr ⟨?_, by simp⟩⟩
      · intro d hd
        rcases List.mem_cons.mp hd with rfl | hd'
        · rw [← hb, ← hs1]; exact hb1
        · rw [List.mem_singleton.mp hd', ← hb, ← hs2]; exact hb2
      · intro d hd
        rw [List.mem_singleton.mp hd, ← hs1, ← hs2]
        exact h12
    · intro hnd
      have hsub : List.Sublist [b.2, s1.2, s2.2] ((b :: s1 :: s2 :: rest).map (fun p => p.2)) := by
        simp only [List.map_cons]
        exact ((List.nil_sublist _).cons₂ _).cons₂ _ |>.cons₂ _
      simpa [select_year_reports] using hsub.nodup hnd

theorem select_year_reports_scores {y : Nat} {rs : List (Int × ExtractedDocument)}
    (hsorted : rs.Pairwise (fun a b => b.1 ≤ a.1))
    (hlink : ∀ p ∈ rs, p.1 = calculate_report_score p.2) :
    (∀ b ∈ (select_year_reports y rs).best, ∀ p ∈ rs,
        calculate_report_score p.2 ≤ calculate_report_score b) ∧
    (∀ s ∈ (select_year_reports y rs).secondary, ∀ p ∈ rs,
        p.2 ∉ (select_year_reports y rs).best ++ (select_year_reports y rs).secondary →
        calculate_report_score p.2 ≤ calculate_report_score s) := by
  match rs with
  | [] =>
    constructor
    · intro b hb
      simp [select_year_reports] at hb
    · intro s hs
      simp [select_year_reports] at hs
  | [b0] =>
    constructor
    · intro b hb p hp
      have hb' : b = b0.2 := by simpa [select_year_reports] using hb
      have hp' : p = b0 := List.mem_singleton.mp hp
      subst hb'
      subst hp'
      exact le_refl _
    · intro s hs
      simp [select_year_reports] at hs
  | [b0, s1] =>
    have hp1 := List.pairwise_cons.mp hsorted
    have h1 : s1.1 ≤ b0.1 := hp1.1 s1 (by simp)
    have hlb := hlink b0 (by simp)
    have hls1 := hlink s1 (by simp)
    constructor
    · intro b hb p hp
      have hb' : b = b0.2 := by simpa [select_year_reports] using hb
      subst hb'
      rcases List.mem_cons.mp hp with rfl | hp'
      · exact le_refl _
      · have hps1 : p = s1 := List.mem_singleton.mp hp'
        subst hps1
        rw [← hlb, ← hls1]
        exact h1
    · intro s hs p hp hnot
      exfalso
      apply hnot
      rcases List.mem_cons.mp hp with rfl | hp'
      · simp [select_year_reports]
      · have hps1 : p = s1 := List.mem_singleton.mp hp'
        subst hps1
        simp [select_year_reports]
  | b0 :: s1 :: s2 :: rest =>
    have hp1 := List.pairwise_cons.mp hsorted
    have hp2 := List.pairwise_cons.mp hp1.2
    have hp3 := List.pairwise_cons.mp hp2.2
    have hlb := hlink b0 (by simp)
    have hls1 := hlink s1 (by simp)
    have hls2 := hlink s2 (by simp)
    constructor
    · intro b hb p hp
      have hb' : b = b0.2 := by simpa [select_year_reports] using hb
      subst hb'
      rcases List.mem_cons.mp hp with rfl | hp'
      · exact le_refl _
      · have hple : p.1 ≤ b0.1 := hp1.1 p hp'
        have hlp := hlink p hp
        rw [← hlb, ← hlp]
        exact hple
    · intro s hs p hp hnot
      have hs' : s = s1.2 ∨ s = s2.2 := by
        simpa [select_year_reports] using hs
      have hn1 : p.2 ≠ b0.2 := by
        intro h
        exact hnot (by simp [select_year_reports, h])
      have hn2 : p.2 ≠ s1.2 := by
        intro h
        exact hnot (by simp [select_year_reports, h])
      have hn3 : p.2 ≠ s2.2 := by
        intro h
        exact hnot (by simp [select_year_reports, h])
      have hprest : p ∈ rest := by
        rcases List.mem_cons.mp hp with rfl | hp'
        · exact absurd rfl hn1
        · rcases List.mem_cons.mp hp' with rfl | hp''
          · exact absurd rfl hn2
          · rcases List.mem_cons.mp hp'' with rfl | hp3'
            · exact absurd rfl hn3
            · exact hp3'
      have hlp := hlink p hp
      rcases hs' with rfl | rfl
      · have hle : p.1 ≤ s1.1 := hp2.1 p (List.mem_cons.mpr (Or.inr hprest))
        rw [← hls1, ← hlp]
        exact hle
      · have hle : p.1 ≤ s2.1 := hp3.1 p hprest
        rw [← hls2, ← hlp]
        exact hle

theorem mem_group_of_year {docs : List ExtractedDocument} {d : ExtractedDocument}
    {g : Nat × List ExtractedDocument} (hg : g ∈ groupReportsByYear docs)
    (hd : d ∈ docs) (hy : d.year = some g.1) (h0 : g.1 ≠ 0) : d ∈ g.2 := by
  have htruthy : pyTruthyInt d.year = true := by
    simp [pyTruthyInt, hy, h0]
  have hdf : d ∈ docs.filter (fun d => pyTruthyInt d.year) :=
    List.mem_filter.mpr ⟨hd, htruthy⟩
  obtain ⟨g', hg', hdg'⟩ := mem_group_of_mem_filter hdf
  have hgy : ∀ r ∈ g'.2, r.year = some g'.1 :=
    (groupReportsByYear_entries docs g' hg').2.2
  have hkey : g'.1 = g.1 := Option.some.inj ((hgy d hdg').symm.trans hy)
  have hgg : g' = g :=
    List.inj_on_of_nodup_map (groupReportsByYear_keys_nodup docs) hg' hg hkey
  rw [← hgg]
  exact hdg'

theorem selectStep_eq_none {ranked : List (Nat × List (Int × ExtractedDocument))}
    {acc : List YearSelection} {y : Nat} (h : ranked.lookup y = none) :
    selectStep ranked acc y = acc := by
  unfold selectStep
  rw [h]

theorem selectStep_eq_some {ranked : List (Nat × List (Int × ExtractedDocument))}
    {acc : List YearSelection} {y : Nat} {rs : List (Int × ExtractedDocument)}
    (h : ranked.lookup y = some rs) :
    selectStep ranked acc y =
      if rs.isEmpty then acc else acc ++ [select_year_reports y rs] := by
  unfold selectStep
  rw [h]

theorem selectStep_mono {ranked : List (Nat × List (Int × ExtractedDocument))}
    {acc : List YearSelection} {e : YearSelection} {y : Nat} (h : e ∈ acc) :
    e ∈ selectStep ranked acc y := by
  cases hl : ranked.lookup y with
  | none => rw [selectStep_eq_none hl]; exact h
  | some rs =>
    rw [selectStep_eq_some hl]
    by_cases hrs : rs.isEmpty = true
    · rw [if_pos hrs]; exact h
    · rw [if_neg hrs]; exact List.mem_append.mpr (Or.inl h)

theorem foldl_selectStep_mono {ranked : List (Nat × List (Int × ExtractedDocument))}
    {e : YearSelection} :
    ∀ (years : List Nat) (acc : List YearSelection), e ∈ acc →
      e ∈ years.foldl (selectStep ranked) acc := by
  intro years
  induction years with
  | nil => intro acc h; exact h
  | cons y ys ih => intro acc h; exact ih _ (selectStep_mono h)

theorem foldl_selectStep_mem {ranked : List (Nat × List (Int × ExtractedDocument))}
    {e : YearSelection} :
    ∀ (years : List Nat) (acc : List YearSelection),
      e ∈ years.foldl (selectStep ranked) acc →
      e ∈ acc ∨ ∃ y rs, ranked.lookup y = some rs ∧ ¬ rs.isEmpty = true ∧
        e = select_year_reports y rs := by
  intro years
  induction years with
  | nil => intro acc h; exact Or.inl h
  | cons y ys ih =>
    intro acc h
    rcases ih _ h with hacc | hex
    · cases hl : ranked.lookup y with
      | none =>
        rw [selectStep_eq_none hl] at hacc
        exact Or.inl hacc
      | some rs =>
        rw [selectStep_eq_some hl] at hacc
        by_cases hrs : rs.isEmpty = true
        · rw [if_pos hrs] at hacc
          exact Or.inl hacc
        · rw [if_neg hrs] at hacc
          rcases List.mem_append.mp hacc with h' | h'
          · exact Or.inl h'
          · exact Or.inr ⟨y, rs, hl, hrs, (List.mem_singleton.mp h')⟩
    · exact Or.inr hex

theorem foldl_selectStep_covers {ranked : List (Nat × List (Int × ExtractedDocument))}
    {y : Nat} {rs : List (Int × ExtractedDocument)}
    (hl : ranked.lookup y = some rs) (hrs : ¬ rs.isEmpty = true) :
    ∀ (years : List Nat) (acc : List YearSelection), y ∈ years →
      ∃ e ∈ years.foldl (selectStep ranked) acc, e.year = y := by
  intro years
  induction years with
  | nil => intro acc h; simp at h
  | cons y0 ys ih =>
    intro acc hy
    rcases List.mem_cons.mp hy with rfl | hy'
    · refine ⟨select_year_reports y rs, ?_, select_year_reports_year y rs⟩
      rw [List.foldl_cons]
      apply foldl_selectStep_mono
      rw [selectStep_eq_some hl, if_neg hrs]
      simp
    · exact ih _ hy'

/-- Everything the selection loop guarantees about one output entry of
`process_company_reports`. -/
theorem process_reports_entry_spec {docs : List ExtractedDocument} {e : YearSelection}
    (he : e ∈ (process_company_reports docs).reports) :
    e.best.length = 1 ∧ e.secondary.length ≤ 2 ∧
    (∀ d ∈ e.best ++ e.secondary, d.year = some e.year ∧ e.year ≠ 0 ∧ d ∈ docs) ∧
    List.Pairwise (fun a b => calculate_report_score b ≤ calculate_report_score a)
      (e.best ++ e.secondary) ∧
    (docs.Nodup → (e.best ++ e.secondary).Nodup) := by
  have hrep : (process_company_reports docs).reports =
      (sortAsc ((rank_reports_for_company docs).map (fun g => g.1))).foldl
        (selectStep (rank_reports_for_company docs)) [] := rfl
  rw [hrep] at he
  rcases foldl_selectStep_mem _ _ he with habs | ⟨y, rs, hl, hrs, rfl⟩
  · simp at habs
  · have hmem : (y, rs) ∈ rank_reports_for_company docs := lookup_mem hl
    have hde : ¬ docs.isEmpty = true := by
      intro hd
      rw [rank_reports_for_company, if_pos hd] at hmem
      simp at hmem
    rw [rank_reports_for_company, if_neg hde] at hmem
    obtain ⟨g, hg, hpair⟩ := List.mem_map.mp hmem
    injection hpair with hy1 hrs1
    subst hy1
    subst hrs1
    obtain ⟨hgne, hg0, hgyear⟩ := groupReportsByYear_entries docs g hg
    have hne : rank_reports_for_year g.2 ≠ [] := rank_ne_nil hgne
    have hsorted := rank_sorted_desc g.2
    have hlink : ∀ p ∈ rank_reports_for_year g.2, p.1 = calculate_report_score p.2 :=
      fun p hp => (rank_mem hp).2
    obtain ⟨hb1, hs2, hmem', hpw, hnd⟩ :=
      select_year_reports_spec (y := g.1) hne hsorted hlink
    have hyear : (select_year_reports g.1 (rank_reports_for_year g.2)).year = g.1 :=
      select_year_reports_year g.1 (rank_reports_for_year g.2)
    refine ⟨hb1, hs2, ?_, hpw, ?_⟩
    · intro d hd
      obtain ⟨p, hp, hpd⟩ := hmem' d hd
      have hr := rank_mem hp
      have hdy : d.year = some g.1 := by
        rw [← hpd]
        exact hgyear p.2 hr.1
      refine ⟨?_, ?_, ?_⟩
      · rw [hyear]
        exact hdy
      · rw [hyear]
        exact hg0
      · rw [← hpd]
        exact mem_docs_of_mem_group hg hr.1
    · intro hdocs
      apply hnd
      have hperm : List.Perm ((rank_reports_for_year g.2).map (fun p => p.2)) g.2 := by
        refine rank_snd_perm ?_
        simp [List.isEmpty_iff, hgne]
      exact hperm.nodup_iff.mpr (group_list_nodup hdocs hg)

/-- The output entry of `select_best_reports` for a year is the selection
computed from that year's group of the `reports_by_year` dict. -/
theorem process_reports_entry_group {docs : List ExtractedDocument} {e : YearSelection}
    (he : e ∈ (process_company_reports docs).reports) :
    ∃ g ∈ groupReportsByYear docs,
      g.1 = e.year ∧ e = select_year_reports g.1 (rank_reports_for_year g.2) ∧
      g.2 ≠ [] ∧ g.1 ≠ 0 := by
  have hrep : (process_company_reports docs).reports =
      (sortAsc ((rank_reports_for_company docs).map (fun g => g.1))).foldl
        (selectStep (rank_reports_for_company docs)) [] := rfl
  rw [hrep] at he
  rcases foldl_selectStep_mem _ _ he with habs | ⟨y, rs, hl, hrs, rfl⟩
  · simp at habs
  · have hmem : (y, rs) ∈ rank_reports_for_company docs := lookup_mem hl
    have hde : ¬ docs.isEmpty = true := by
      intro hd
      rw [rank_reports_for_company, if_pos hd] at hmem
      simp at hmem
    rw [rank_reports_for_company, if_neg hde] at hmem
    obtain ⟨g, hg, hpair⟩ := List.mem_map.mp hmem
    injection hpair with hy1 hrs1
    subst hy1
    subst hrs1
    obtain ⟨hgne, hg0, -⟩ := groupReportsByYear_entries docs g hg
    exact ⟨g, hg, (select_year_reports_year g.1 (rank_reports_for_year g.2)).symm,
      rfl, hgne, hg0⟩

/-- C6: for every year with at least one (truthy-year) candidate the
selection has exactly one best entry and at most two secondary entries,
secondary follows descending score, best and secondary are disjoint for
duplicate-free inputs, best is the top-scoring candidate of its year
(it scores at least as high as every candidate of that year), each
secondary is next-highest-scoring (it scores at least as high as every
unselected candidate of that year), and years with zero candidates are
omitted (every output year has a candidate, and every candidate year is
output). -/
theorem year_selection_shape (docs : List ExtractedDocument) :
    (∀ e ∈ (process_company_reports docs).reports,
        e.best.length = 1 ∧ e.secondary.length ≤ 2 ∧
        List.Pairwise (fun a b => calculate_report_score b ≤ calculate_report_score a)
          (e.best ++ e.secondary) ∧
        (docs.Nodup → ∀ d ∈ e.best, d ∉ e.secondary) ∧
        (∃ d ∈ docs, d.year = some e.year) ∧
        (∀ b ∈ e.best, ∀ d ∈ docs, d.year = some e.year →
            calculate_report_score d ≤ calculate_report_score b) ∧
        (∀ s ∈ e.secondary, ∀ d ∈ docs, d.year = some e.year →
            d ∉ e.best ++ e.secondary →
            calculate_report_score d ≤ calculate_report_score s)) ∧
    (∀ d ∈ docs, pyTruthyInt d.year = true →
        ∃ e ∈ (process_company_reports docs).reports, some e.year = d.year) := by
  constructor
  · intro e he
    obtain ⟨hb1, hs2, hmem, hpw, hnd⟩ := process_reports_entry_spec he
    obtain ⟨g, hg, hgy, hge, hgne, hg0⟩ := process_reports_entry_group he
    have hg2ne : ¬ g.2.isEmpty = true := by
      simp [List.isEmpty_iff, hgne]
    have hsorted := rank_sorted_desc g.2
    have hlink : ∀ p ∈ rank_reports_for_year g.2, p.1 = calculate_report_score p.2 :=
      fun p hp => (rank_mem hp).2
    have hscores := select_year_reports_scores (y := g.1) hsorted hlink
    refine ⟨hb1, hs2, hpw, ?_, ?_, ?_, ?_⟩
    · intro hdocs d hdb hds
      have hnodup := hnd hdocs
      obtain ⟨b, hb⟩ := List.length_eq_one.mp hb1
      rw [hb] at hdb hnodup
      rw [List.mem_singleton.mp hdb] at hds
      rw [List.singleton_append] at hnodup
      exact (List.nodup_cons.mp hnodup).1 hds
    · obtain ⟨b, hb⟩ := List.length_eq_one.mp hb1
      have hbm : b ∈ e.best ++ e.secondary := by
        rw [hb]
        simp
      obtain ⟨hy, -, hbd⟩ := hmem b hbm
      exact ⟨b, hbd, hy⟩
    · intro b hb d hd hdy
      have hdg : d ∈ g.2 := mem_group_of_year hg hd (by rw [hdy, hgy]) hg0
      have hdm : d ∈ (rank_reports_for_year g.2).map (fun p => p.2) :=
        ((rank_snd_perm hg2ne).mem_iff).mpr hdg
      obtain ⟨p, hp, hpd⟩ := List.mem_map.mp hdm
      have hb' : b ∈ (select_year_reports g.1 (rank_reports_for_year g.2)).best := by
        rw [← hge]
        exact hb
      have hle := hscores.1 b hb' p hp
      rw [hpd] at hle
      exact hle
    · intro s hs d hd hdy hnot
      have hdg : d ∈ g.2 := mem_group_of_year hg hd (by rw [hdy, hgy]) hg0
      have hdm : d ∈ (rank_reports_for_year g.2).map (fun p => p.2) :=
        ((rank_snd_perm hg2ne).mem_iff).mpr hdg
      obtain ⟨p, hp, hpd⟩ := List.mem_map.mp hdm
      have hs' : s ∈ (select_year_reports g.1 (rank_reports_for_year g.2)).secondary := by
        rw [← hge]
        exact hs
      have hnot' : p.2 ∉ (select_year_reports g.1 (rank_reports_for_year g.2)).best ++
          (select_year_reports g.1 (rank_reports_for_year g.2)).secondary := by
        rw [← hge, hpd]
        exact hnot
      have hle := hscores.2 s hs' p hp hnot'
      rw [hpd] at hle
      exact hle
  · intro d hd htruthy
    have hdf : d ∈ docs.filter (fun d => pyTruthyInt d.year) :=
      List.mem_filter.mpr ⟨hd, htruthy⟩
    obtain ⟨g, hg, hdg⟩ := mem_group_of_mem_filter hdf
    obtain ⟨hgne, hg0, hgyear⟩ := groupReportsByYear_entries docs g hg
    have hdy : d.year = some g.1 := hgyear d hdg
    have hde : ¬ docs.isEmpty = true := by
      simp only [List.isEmpty_iff]
      intro hc
      rw [hc] at hd
      simp at hd
    have hranked : rank_reports_for_company docs =
        (groupReportsByYear docs).map (fun g => (g.1, rank_reports_for_year g.2)) := by
      rw [rank_reports_for_company, if_neg hde]
    have hkeys : (rank_reports_for_company docs).map (fun p => p.1) =
        (groupReportsByYear docs).map (fun g => g.1) := by
      rw [hranked, List.map_map]
      rfl
    have hknd : ((rank_reports_for_company docs).map (fun p => p.1)).Nodup := by
      rw [hkeys]
      exact groupReportsByYear_keys_nodup docs
    have hpm : (g.1, rank_reports_for_year g.2) ∈ rank_reports_for_company docs := by
      rw [hranked]
      exact List.mem_map.mpr ⟨g, hg, rfl⟩
    have hl : (rank_reports_for_company docs).lookup g.1 = some (rank_reports_for_year g.2) :=
      lookup_eq_some_of_mem_nodup hknd hpm
    have hrne : ¬ (rank_reports_for_year g.2).isEmpty = true := by
      simp only [List.isEmpty_iff]
      exact rank_ne_nil hgne
    have hyc : g.1 ∈ sortAsc ((rank_reports_for_company docs).map (fun p => p.1)) := by
      rw [mem_sortAsc, hkeys]
      exact List.mem_map.mpr ⟨g, hg, rfl⟩
    obtain ⟨e, hem, hey⟩ := foldl_selectStep_covers hl hrne _ [] hyc
    refine ⟨e, hem, ?_⟩
    rw [hey, hdy]

/-- Witness for C6: a one-candidate input produces an output entry for its
year. -/
theorem year_selection_shape_witness :
    ∃ e ∈ (process_company_reports
        [⟨"https://e.example.com/ar2020.pdf", "Annual Report", "", some 2020⟩]).reports,
      some e.year = some 2020 :=
  (year_selection_shape _).2
    ⟨"https://e.example.com/ar2020.pdf", "Annual Report", "", some 2020⟩
    (by decide) (by decide)

/-- C10: the post-discovery year filter keeps only documents with a
present (truthy) year inside the window, and the ranker's grouping drops
documents without a year, so every selected document carries the year of
its output entry — no output entry has a missing year. -/
theorem no_missing_year_in_selection :
    (∀ (documents : List ExtractedDocument) (min_year current_year : Nat),
        ∀ d ∈ filter_documents_by_year documents min_year current_year,
          ∃ y, d.year = some y ∧ y ≠ 0 ∧ min_year ≤ y ∧ y < current_year) ∧
    (∀ (docs : List ExtractedDocument), ∀ e ∈ (process_company_reports docs).reports,
        ∀ d ∈ e.best ++ e.secondary, d.year = some e.year ∧ e.year ≠ 0) := by
  constructor
  · intro documents min_year current_year d hd
    have := List.of_mem_filter hd
    match hy : d.year with
    | none => rw [hy] at this; simp at this
    | some y =>
      rw [hy] at this
      simp only [Bool.and_eq_true, bne_iff_ne, ne_eq, decide_eq_true_eq] at this
      exact ⟨y, rfl, this.1, this.2.1, this.2.2⟩
  · intro docs e he d hd
    obtain ⟨-, -, hmem, -, -⟩ := process_reports_entry_spec he
    obtain ⟨h1, h2, -⟩ := hmem d hd
    exact ⟨h1, h2⟩

/-- Witness for C10: the filter clause applied at a concrete input. -/
theorem no_missing_year_in_selection_witness :
    ∃ y, (some 2020 : Option Nat) = some y ∧ y ≠ 0 ∧ 2014 ≤ y ∧ y < 2025 := by
  have h := no_missing_year_in_selection.1
    [⟨"https://e.example.com/ar2020.pdf", "Annual Report", "", some 2020⟩] 2014 2025
    ⟨"https://e.example.com/ar2020.pdf", "Annual Report", "", some 2020⟩ (by decide)
  exact h

/-! ### Substring decomposition lemmas (for C4)

An occurrence of `k` inside `a ++ b` lies inside `a`, inside `b`, or
spans the junction; the span case is refutable for the concrete keyword
lists by checking every split of `k`. -/

theorem prefix_append_cases {α : Type} {k a b : List α} (h : k <+: a ++ b) :
    k <+: a ∨ ∃ t, k = a ++ t ∧ t <+: b := by
  induction a generalizing k with
  | nil => exact Or.inr ⟨k, by simp, by simpa using h⟩
  | cons x a' ih =>
    rcases List.prefix_cons_iff.mp h with rfl | ⟨t, rfl, ht⟩
    · exact Or.inl (List.nil_prefix)
    · rcases ih ht with h1 | ⟨t', rfl, ht'⟩
      · exact Or.inl (List.cons_prefix_cons.mpr ⟨rfl, h1⟩)
      · exact Or.inr ⟨t', by simp, ht'⟩

theorem infix_append_cases {α : Type} {k a b : List α} (h : k <:+: a ++ b) :
    k <:+: a ∨ k <:+: b ∨
      ∃ k1 k2, k = k1 ++ k2 ∧ k1 ≠ [] ∧ k2 ≠ [] ∧ k1 <:+ a ∧ k2 <+: b := by
  induction a with
  | nil => exact Or.inr (Or.inl (by simpa using h))
  | cons x a' ih =>
    rw [List.cons_append] at h
    rcases List.infix_cons_iff.mp h with hpre | hinf
    · rcases List.prefix_cons_iff.mp hpre with rfl | ⟨t, rfl, ht⟩
      · exact Or.inl List.nil_infix
      · rcases prefix_append_cases ht with h1 | ⟨t', rfl, ht'⟩
        · exact Or.inl (List.cons_prefix_cons.mpr ⟨rfl, h1⟩).isInfix
        · match t', ht' with
          | [], _ => exact Or.inl (by simp)
          | t'' :: ts, ht'' =>
            refine Or.inr (Or.inr ⟨x :: a', t'' :: ts, by simp, by simp, by simp,
              List.suffix_refl _, ht''⟩)
    · rcases ih hinf with h1 | h2 | ⟨k1, k2, rfl, h1ne, h2ne, hsuf, hpre⟩
      · exact Or.inl (List.infix_cons h1)
      · exact Or.inr (Or.inl h2)
      · exact Or.inr (Or.inr ⟨k1, k2, rfl, h1ne, h2ne,
          hsuf.trans (List.suffix_cons x a'), hpre⟩)

/-- If `k` neither occurs in `b` nor has a nonempty split whose right part
is a prefix of `b`, then `k` occurs in `lb ++ b` exactly when it occurs in
`lb`. -/
theorem infix_append_right_iff {k lb b : List Char}
    (hkb : ¬ k <:+: b)
    (hsp : ∀ i, i < k.length → 0 < i → ¬ ((k.drop i) <+: b)) :
    (k <:+: lb ++ b) ↔ k <:+: lb := by
  constructor
  · intro h
    rcases infix_append_cases h with h1 | h2 | ⟨k1, k2, hk, h1ne, h2ne, hsuf, hpre⟩
    · exact h1
    · exact absurd h2 hkb
    · exfalso
      have hi1 : 0 < k1.length := List.length_pos.mpr h1ne
      have hi2 : k1.length < k.length := by
        rw [hk, List.length_append]
        have := List.length_pos.mpr h2ne
        omega
      have hdrop : k.drop k1.length = k2 := by
        rw [hk]
        exact List.drop_left k1 k2
      exact hsp k1.length hi2 hi1 (hdrop ▸ hpre)
  · intro h
    exact h.trans (List.prefix_append lb b).isInfix

/-- `k` occurring in the appended tail `b` occurs in `lb ++ b`. -/
theorem infix_append_of_infix_right {k lb b : List Char} (h : k <:+: b) :
    k <:+: lb ++ b :=
  h.trans (List.suffix_append lb b).isInfix

theorem string_data_append (a b : String) : (a ++ b).data = a.data ++ b.data := by
  cases a
  cases b
  rfl

theorem pyLower_append_data (a b : String) :
    (pyLower (a ++ b)).data = (pyLower a).data ++ (pyLower b).data := by
  simp [pyLower, string_data_append]

theorem not_suffix_last_ne {l t s : List Char} {x y : Char} (hxy : x ≠ y) :
    ¬ ((s ++ [x]) <:+ (l ++ (t ++ [y]))) := by
  intro h
  obtain ⟨u, hu⟩ := h
  rw [← List.append_assoc, ← List.append_assoc] at hu
  have h1 := List.getLast?_concat (l := u ++ s) (a := x)
  rw [hu, List.getLast?_concat] at h1
  exact hxy (Option.some.injEq _ _ ▸ h1.symm ▸ rfl)

theorem priorityBonusAux_congr {p q : String → Bool} :
    ∀ (ks : List String), (∀ k ∈ ks, p k = q k) →
      ∀ n : Nat, priorityBonusAux p ks n = priorityBonusAux q ks n := by
  intro ks
  induction ks with
  | nil => intro _ _; rfl
  | cons k ks' ih =>
    intro h n
    have hk := h k (List.mem_cons_self _ _)
    simp only [priorityBonusAux, hk]
    by_cases hq : q k = true
    · rw [if_pos hq, if_pos hq]
    · rw [if_neg hq, if_neg hq]
      exact ih (fun k' hk' => h k' (List.mem_cons_of_mem _ hk')) (n - 1)

theorem penalty_foldl_congr {p q : String → Bool} :
    ∀ (ks : List String), (∀ k ∈ ks, p k = q k) → ∀ s : Int,
      ks.foldl (fun acc k => if p k then acc - 100 else acc) s =
        ks.foldl (fun acc k => if q k then acc - 100 else acc) s := by
  intro ks
  induction ks with
  | nil => intro _ _; rfl
  | cons k ks' ih =>
    intro h s
    have hk := h k (List.mem_cons_self _ _)
    simp only [List.foldl_cons, hk]
    exact ih (fun k' hk' => h k' (List.mem_cons_of_mem _ hk')) _

theorem penalty_foldl_add (p : String → Bool) :
    ∀ (ks : List String) (s c : Int),
      ks.foldl (fun acc k => if p k then acc - 100 else acc) (s + c) =
        ks.foldl (fun acc k => if p k then acc - 100 else acc) s + c := by
  intro ks
  induction ks with
  | nil => intro s c; rfl
  | cons k ks' ih =>
    intro s c
    simp only [List.foldl_cons]
    by_cases hk : p k = true
    · rw [if_pos hk, if_pos hk]
      have harith : s + c - 100 = (s - 100) + c := by ring
      rw [harith]
      exact ih (s - 100) c
    · rw [if_neg hk, if_neg hk]
      exact ih s c

/-- Both score-relevant keyword lists stay away from the `.xlsx`/`.pdf`
extensions: no keyword occurs inside an extension and no nonempty split of
a keyword has its right part as a prefix of an extension (so no occurrence
can cross the junction with the base URL). -/
theorem score_keywords_sep_ext :
    ∀ k ∈ priority_keywords ++ ranker_quarterly_keywords,
      (¬ k.data <:+: ('.' :: "xlsx".data)) ∧ (¬ k.data <:+: ('.' :: "pdf".data)) ∧
      (∀ i, i < k.data.length → 0 < i →
        ¬ ((k.data.drop i) <+: ('.' :: "xlsx".data))) ∧
      (∀ i, i < k.data.length → 0 < i →
        ¬ ((k.data.drop i) <+: ('.' :: "pdf".data))) := by decide

theorem pyLower_ext_xlsx (base : String) :
    (pyLower (base ++ ".xlsx")).data = (pyLower base).data ++ ('.' :: "xlsx".data) := by
  rw [pyLower_append_data]
  have h : (pyLower ".xlsx").data = '.' :: "xlsx".data := by decide
  rw [h]

theorem pyLower_ext_pdf (base : String) :
    (pyLower (base ++ ".pdf")).data = (pyLower base).data ++ ('.' :: "pdf".data) := by
  rw [pyLower_append_data]
  have h : (pyLower ".pdf").data = '.' :: "pdf".data := by decide
  rw [h]

theorem pyIn_ext_eq {k : String} (base : String)
    (h1 : ¬ k.data <:+: ('.' :: "xlsx".data))
    (h2 : ¬ k.data <:+: ('.' :: "pdf".data))
    (hsp1 : ∀ i, i < k.data.length → 0 < i →
      ¬ ((k.data.drop i) <+: ('.' :: "xlsx".data)))
    (hsp2 : ∀ i, i < k.data.length → 0 < i →
      ¬ ((k.data.drop i) <+: ('.' :: "pdf".data))) :
    pyIn k (pyLower (base ++ ".xlsx")) = pyIn k (pyLower (base ++ ".pdf")) := by
  simp only [pyIn, pyLower_ext_xlsx, pyLower_ext_pdf]
  rw [decide_eq_decide]
  rw [infix_append_right_iff h1 hsp1, infix_append_right_iff h2 hsp2]

theorem penalty_foldl_url_congr (tl u1 u2 : String)
    (h : ∀ k ∈ ranker_quarterly_keywords, pyIn k u1 = pyIn k u2) (s : Int) :
    ranker_quarterly_keywords.foldl
        (fun acc k => if pyIn k tl || pyIn k u1 then acc - 100 else acc) s =
      ranker_quarterly_keywords.foldl
        (fun acc k => if pyIn k tl || pyIn k u2 then acc - 100 else acc) s :=
  penalty_foldl_congr _ (fun k hk => by rw [h k hk]) s

theorem penalty_foldl_shift (tl u : String) (s c : Int) :
    ranker_quarterly_keywords.foldl
        (fun acc k => if pyIn k tl || pyIn k u then acc - 100 else acc) (s + c) =
      ranker_quarterly_keywords.foldl
        (fun acc k => if pyIn k tl || pyIn k u then acc - 100 else acc) s + c :=
  penalty_foldl_add _ _ _ _

theorem penalty_foldl_eq_countP (p : String → Bool) :
    ∀ (ks : List String) (s : Int),
      ks.foldl (fun acc k => if p k then acc - 100 else acc) s =
        s - 100 * (ks.countP p : Int) := by
  intro ks
  induction ks with
  | nil => intro s; simp
  | cons k ks' ih =>
    intro s
    rw [List.foldl_cons, List.countP_cons]
    by_cases hk : p k = true
    · rw [if_pos hk, ih]
      simp only [hk, eq_self_iff_true, if_true]
      push_cast
      ring
    · rw [if_neg hk, ih]
      simp only [hk, if_false]
      push_cast
      ring

theorem penalty_foldl_count (tl u : String) (s : Int) :
    ranker_quarterly_keywords.foldl
        (fun acc k => if pyIn k tl || pyIn k u then acc - 100 else acc) s =
      s - 100 * ((ranker_quarterly_keywords.countP
        (fun k => pyIn k tl || pyIn k u) : Int)) :=
  penalty_foldl_eq_countP _ _ _

theorem penalty_foldl_init_congr (tl u : String) {s1 s2 c : Int} (h : s1 = s2 + c) :
    ranker_quarterly_keywords.foldl
        (fun acc k => if pyIn k tl || pyIn k u then acc - 100 else acc) s1 =
      ranker_quarterly_keywords.foldl
        (fun acc k => if pyIn k tl || pyIn k u then acc - 100 else acc) s2 + c := by
  rw [h]
  exact penalty_foldl_shift tl u s2 c

/-- The `.xlsx` file-type bonus is 200 and the `.pdf` bonus is 100, and no
other scoring component can tell the two URLs apart, so the score
difference is exactly 100. -/
theorem score_xlsx_vs_pdf (base title content : String) (year : Option Nat) :
    calculate_report_score ⟨base ++ ".xlsx", title, content, year⟩ =
      calculate_report_score ⟨base ++ ".pdf", title, content, year⟩ + 100 := by
  have hmem : ∀ k ∈ priority_keywords ++ ranker_quarterly_keywords,
      pyIn k (pyLower (base ++ ".xlsx")) = pyIn k (pyLower (base ++ ".pdf")) := by
    intro k hk
    obtain ⟨h1, h2, hsp1, hsp2⟩ := score_keywords_sep_ext k hk
    exact pyIn_ext_eq base h1 h2 hsp1 hsp2
  have hx1 : pyEndsWith (pyLower (base ++ ".xlsx")) ".xlsx" = true := by
    simp only [pyEndsWith, pyLower_ext_xlsx]
    rw [decide_eq_true_eq]
    have h : ('.' :: "xlsx".data) = ".xlsx".data := rfl
    rw [h]
    exact List.suffix_append _ _
  have hx2 : pyEndsWith (pyLower (base ++ ".pdf")) ".xlsx" = false := by
    simp only [pyEndsWith, pyLower_ext_pdf]
    rw [decide_eq_false_iff_not]
    exact @not_suffix_last_ne ((pyLower base).data) (['.', 'p', 'd']) (['.', 'x', 'l', 's'])
      'x' 'f' (by decide)
  have hx3 : pyEndsWith (pyLower (base ++ ".pdf")) ".pdf" = true := by
    simp only [pyEndsWith, pyLower_ext_pdf]
    rw [decide_eq_true_eq]
    have h : ('.' :: "pdf".data) = ".pdf".data := rfl
    rw [h]
    exact List.suffix_append _ _
  have hx2' : ¬ (pyEndsWith (pyLower (base ++ ".pdf")) ".xlsx" = true) := by
    rw [hx2]
    exact Bool.false_ne_true
  have hpb :
      priorityBonusAux
          (fun k => pyIn k (pyLower title) || pyIn k (pyLower (base ++ ".xlsx")))
          priority_keywords priority_keywords.length =
        priorityBonusAux
          (fun k => pyIn k (pyLower title) || pyIn k (pyLower (base ++ ".pdf")))
          priority_keywords priority_keywords.length := by
    apply priorityBonusAux_congr
    intro k hk
    show (pyIn k (pyLower title) || pyIn k (pyLower (base ++ ".xlsx"))) =
        (pyIn k (pyLower title) || pyIn k (pyLower (base ++ ".pdf")))
    rw [hmem k (List.mem_append.mpr (Or.inl hk))]
  unfold calculate_report_score
  dsimp only
  rw [penalty_foldl_url_congr (pyLower title) (pyLower (base ++ ".xlsx"))
    (pyLower (base ++ ".pdf")) (fun k hk => hmem k (List.mem_append.mpr (Or.inr hk)))]
  rw [if_pos hx1, if_neg hx2', if_pos hx3, hpb]
  exact penalty_foldl_init_congr _ _ (by ring)

theorem pyIn_append_tail_eq {k t2 t1 : String} {b : List Char}
    (he : t2.data = t1.data ++ b)
    (hkb : ¬ k.data <:+: b)
    (hsp : ∀ i, i < k.data.length → 0 < i → ¬ ((k.data.drop i) <+: b)) :
    pyIn k t2 = pyIn k t1 := by
  simp only [pyIn, he]
  rw [decide_eq_decide]
  exact infix_append_right_iff hkb hsp

theorem pyIn_append_tail_true {k t2 t1 : String} {b : List Char}
    (he : t2.data = t1.data ++ b) (h : k.data <:+: b) :
    pyIn k t2 = true := by
  simp only [pyIn, he]
  rw [decide_eq_true_eq]
  exact infix_append_of_infix_right h

set_option maxHeartbeats 1600000 in
/-- The score-relevant non-quarter keywords cannot gain or lose an
occurrence when `" quarterly"` is appended to a title: none occurs inside
`" quarterly"` and no split's right part is a prefix of it. -/
theorem score_keywords_sep_quarterly :
    ∀ k ∈ priority_keywords ++
        ["form", "20", "annual", "consolidated", "financial", "statements",
         "transparency", "disclosure", "q1", "q2", "q3", "q4"],
      (¬ k.data <:+: (' ' :: "quarterly".data)) ∧
      (∀ i, i < k.data.length → 0 < i →
        ¬ ((k.data.drop i) <+: (' ' :: "quarterly".data))) := by decide

set_option maxHeartbeats 1600000 in
/-- Appending `" quarterly"` to the title lowers the score by at least 100
when the shared URL and the original title are free of the relevant
quarterly markers. -/
theorem score_quarterly_title_penalty (url title content content2 : String)
    (year : Option Nat)
    (hq_url : ∀ k ∈ ranker_quarterly_keywords, pyIn k (pyLower url) = false)
    (hq_title : pyIn "quarterly" (pyLower title) = false) :
    calculate_report_score ⟨url, title ++ " quarterly", content2, year⟩ ≤
      calculate_report_score ⟨url, title, content, year⟩ - 100 := by
  have he : (pyLower (title ++ " quarterly")).data =
      (pyLower title).data ++ (' ' :: "quarterly".data) := by
    rw [pyLower_append_data]
    have h : (pyLower " quarterly").data = ' ' :: "quarterly".data := by decide
    rw [h]
  have hkeep : ∀ k ∈ priority_keywords ++
      ["form", "20", "annual", "consolidated", "financial", "statements",
       "transparency", "disclosure", "q1", "q2", "q3", "q4"],
      pyIn k (pyLower (title ++ " quarterly")) = pyIn k (pyLower title) := by
    intro k hk
    obtain ⟨h1, h2⟩ := score_keywords_sep_quarterly k hk
    exact pyIn_append_tail_eq he h1 h2
  have hly : pyIn "quarterly" (pyLower (title ++ " quarterly")) = true :=
    pyIn_append_tail_true he (by decide)
  have hr : pyIn "quarter" (pyLower (title ++ " quarterly")) = true :=
    pyIn_append_tail_true he (by decide)
  have hpb :
      priorityBonusAux
          (fun k => pyIn k (pyLower (title ++ " quarterly")) || pyIn k (pyLower url))
          priority_keywords priority_keywords.length =
        priorityBonusAux
          (fun k => pyIn k (pyLower title) || pyIn k (pyLower url))
          priority_keywords priority_keywords.length := by
    apply priorityBonusAux_congr
    intro k hk
    show (pyIn k (pyLower (title ++ " quarterly")) || pyIn k (pyLower url)) =
        (pyIn k (pyLower title) || pyIn k (pyLower url))
    rw [hkeep k (List.mem_append.mpr (Or.inl hk))]
  unfold calculate_report_score
  dsimp only
  rw [hpb]
  rw [hkeep "form" (by decide), hkeep "20" (by decide), hkeep "annual" (by decide),
    hkeep "consolidated" (by decide), hkeep "financial" (by decide),
    hkeep "statements" (by decide), hkeep "transparency" (by decide),
    hkeep "disclosure" (by decide)]
  rw [penalty_foldl_count, penalty_foldl_count]
  have hcount :
      ranker_quarterly_keywords.countP
          (fun k => pyIn k (pyLower title) || pyIn k (pyLower url)) + 1 ≤
        ranker_quarterly_keywords.countP
          (fun k => pyIn k (pyLower (title ++ " quarterly")) || pyIn k (pyLower url)) := by
    simp only [ranker_quarterly_keywords, List.countP_cons, List.countP_nil]
    rw [hkeep "q1" (by decide), hkeep "q2" (by decide), hkeep "q3" (by decide),
      hkeep "q4" (by decide), hly, hr, hq_title,
      hq_url "quarterly" (by decide), hq_url "quarter" (by decide)]
    simp only [Bool.true_or, Bool.or_false, Bool.false_or, Bool.false_eq_true,
      if_false, if_true]
    split_ifs <;> omega
  have hcast :
      ((ranker_quarterly_keywords.countP
          (fun k => pyIn k (pyLower title) || pyIn k (pyLower url)) : Int)) + 1 ≤
        ((ranker_quarterly_keywords.countP
          (fun k => pyIn k (pyLower (title ++ " quarterly")) || pyIn k (pyLower url)) : Int)) := by
    exact_mod_cast hcount
  linarith

/-- Counterexample to C4 as stated: when the shared URL itself contains a
quarterly marker, the keyword penalty (applied per keyword found in title
OR URL) is already incurred by both candidates, so adding "quarterly" to
the title changes nothing: the two scores are equal, not 100 apart. -/
theorem scoring_quarterly_counterexample :
    calculate_report_score
        ⟨"https://x.example.com/quarterly/report.pdf", "annual report quarterly", "",
          some 2020⟩ =
      calculate_report_score
        ⟨"https://x.example.com/quarterly/report.pdf", "annual report", "", some 2020⟩ ∧
    ¬ (calculate_report_score
          ⟨"https://x.example.com/quarterly/report.pdf", "annual report quarterly", "",
            some 2020⟩ ≤
        calculate_report_score
          ⟨"https://x.example.com/quarterly/report.pdf", "annual report", "", some 2020⟩
          - 100) := by
  constructor
  · decide
  · decide

/-- C4 (amended): (a) for otherwise-identical candidates a `.xlsx` URL
scores exactly 100 points above a `.pdf` URL, unconditionally; (b) a
candidate whose title additionally carries " quarterly" scores at least
100 points lower than the identical candidate without it, provided the
shared URL is free of quarterly keywords and the original title does not
already contain "quarterly" (each quarterly keyword found in title or URL
subtracts 100 once). -/
theorem scoring_monotonicity_amended :
    (∀ (base title content : String) (year : Option Nat),
        calculate_report_score ⟨base ++ ".xlsx", title, content, year⟩ =
          calculate_report_score ⟨base ++ ".pdf", title, content, year⟩ + 100) ∧
    (∀ (url title content content2 : String) (year : Option Nat),
        (∀ k ∈ ranker_quarterly_keywords, pyIn k (pyLower url) = false) →
        pyIn "quarterly" (pyLower title) = false →
        calculate_report_score ⟨url, title ++ " quarterly", content2, year⟩ ≤
          calculate_report_score ⟨url, title, content, year⟩ - 100) :=
  ⟨score_xlsx_vs_pdf, score_quarterly_title_penalty⟩

/-- Witness for the amended C4: part (b) at a concrete quarterly-free URL
and title. -/
theorem scoring_monotonicity_amended_witness :
    calculate_report_score
        ⟨"https://e.example.com/annual.pdf", "Annual Report" ++ " quarterly", "", none⟩ ≤
      calculate_report_score
        ⟨"https://e.example.com/annual.pdf", "Annual Report", "", none⟩ - 100 :=
  scoring_monotonicity_amended.2 "https://e.example.com/annual.pdf" "Annual Report" "" ""
    none (by decide) (by decide)

/-! ### URL helpers (`urllib.parse` as used by `html_processor.py`)

The crawler's theorems are quantified over an arbitrary resolver for
`urljoin`; the helpers below model `urlparse`/`unquote` for the absolute
`http(s)` URLs these claims are about. -/

/-- Split a char list on a separator, keeping empty segments (Python
`str.split`). -/
def splitOnChar (sep : Char) : List Char → List (List Char)
  | [] => [[]]
  | x :: rest =>
    match splitOnChar sep rest with
    | [] => [[]]  -- unreachable: the result is always nonempty
    | seg :: segs => if x = sep then [] :: seg :: segs else (x :: seg) :: segs

/-- Scan for the `"://"` scheme separator; `some rest` is everything after
it. -/
def afterSchemeSep : List Char → Option (List Char)
  | [] => none
  | c :: rest =>
    if c = ':' then
      match rest with
      | '/' :: '/' :: rest2 => some rest2
      | _ => afterSchemeSep rest
    else afterSchemeSep rest

/-- `urlparse(url).netloc` (for scheme-less strings urlparse puts
everything into `path`, so netloc is empty). -/
def urlNetloc (url : String) : String :=
  match afterSchemeSep url.data with
  | some rest => ⟨rest.takeWhile (fun c => !(c = '/' || c = '?' || c = '#'))⟩
  | none => ""

/-- `urlparse(url).path`. -/
def urlPath (url : String) : String :=
  match afterSchemeSep url.data with
  | some rest => ⟨(rest.dropWhile (fun c => c ≠ '/')).takeWhile (fun c => !(c = '?' || c = '#'))⟩
  | none => ⟨url.data.takeWhile (fun c => !(c = '?' || c = '#'))⟩

def pyIsHexDigit (c : Char) : Bool :=
  (48 ≤ c.toNat && c.toNat ≤ 57) || (97 ≤ c.toLower.toNat && c.toLower.toNat ≤ 102)

def hexVal (c : Char) : Nat :=
  if 48 ≤ c.toNat && c.toNat ≤ 57 then c.toNat - 48 else c.toLower.toNat - 87

/-- `urllib.parse.unquote` restricted to single-byte (ASCII) escapes. -/
def percentDecodeAux : Nat → List Char → List Char
  | 0, _ => []
  | _ + 1, [] => []
  | fuel + 1, c :: rest =>
    if c = '%' then
      match rest with
      | h1 :: h2 :: rest2 =>
        if pyIsHexDigit h1 && pyIsHexDigit h2 then
          Char.ofNat (16 * hexVal h1 + hexVal h2) :: percentDecodeAux fuel rest2
        else c :: percentDecodeAux fuel rest
      | _ => c :: percentDecodeAux fuel rest
    else c :: percentDecodeAux fuel rest

def percentDecode (cs : List Char) : List Char := percentDecodeAux cs.length cs

/-! ### `HTMLPageProcessor` keyword lists and URL filters -/

/-- `HTMLPageProcessor.ignore_paths`. -/
def ignore_paths : List String :=
  ["/careers", "/contact", "/contact-us", "/about", "/news", "/press",
   "/media", "/blog", "/support", "/help", "/faq", "/terms", "/privacy",
   "/legal", "/cookies", "/sitemap", "/search", "/login", "/register",
   "/account", "/profile", "/settings", "/cart", "/checkout", "/shop",
   "/store", "/products", "/services", "/solutions", "/technology",
   "/innovation", "/research", "/development", "/sustainability",
   "/environment", "/social", "/governance", "/esg", "/community",
   "/foundation", "/charity", "/donate", "/volunteer", "/events",
   "/webinar", "/conference", "/training", "/education", "/university",
   "/partnership", "/alliance", "/network", "/membership", "/awards",
   "/recognition", "/testimonials", "/case-study", "/success-story",
   "/gallery", "/photos", "/videos", "/podcast", "/webcast", "/live",
   "/stream", "/broadcast", "/tv", "/radio", "/magazine", "/newsletter",
   "/subscription", "/rss", "/feed", "/api/auth", "/api/user", "/api/login",
   "/developer", "/docs",
   "/documentation", "/guide", "/tutorial", "/manual", "/handbook",
   "/whitepaper", "/ebook", "/brochure", "/catalog", "/portfolio",
   "/showcase", "/demo", "/trial", "/free", "/premium", "/pro",
   "/enterprise", "/business", "/corporate", "/institutional"]

/-- `HTMLPageProcessor.social_domains`. -/
def social_domains : List String :=
  ["facebook.com", "fb.com", "instagram.com", "twitter.com", "x.com",
   "linkedin.com", "youtube.com", "youtu.be", "tiktok.com", "snapchat.com",
   "pinterest.com", "reddit.com", "telegram.org", "whatsapp.com",
   "wechat.com", "weibo.com", "vk.com", "tumblr.com", "flickr.com", "vimeo.com"]

/-- `HTMLPageProcessor.social_keywords`. -/
def social_keywords : List String :=
  ["facebook", "instagram", "twitter", "linkedin", "youtube",
   "follow us", "like us", "share", "social media", "connect with us"]

/-- `HTMLPageProcessor._should_skip_url`. -/
def should_skip_url (url : String) : Bool :=
  ignore_paths.any (fun ignore_path => pyIn ignore_path (pyLower url))

/-- `HTMLPageProcessor._is_social_media_link`. -/
def is_social_media_link (href link_text : String) : Bool :=
  let href_lower := pyLower href
  let text_lower := pyLower link_text
  social_domains.any (fun domain => pyIn domain href_lower) ||
    social_keywords.any (fun keyword => pyIn keyword text_lower)

/-- `HTMLPageProcessor._extract_base_domain`. -/
def extract_base_domain (url : String) : String :=
  let domain := pyLower (urlNetloc url)
  -- remove port if present (split(':')[0] also covers the no-colon case)
  let domain : String := ⟨domain.data.takeWhile (fun c => c ≠ ':')⟩
  -- take the last two dot-separated labels when there are at least two
  match (splitOnChar '.' domain.data).reverse with
  | tld :: dom :: _ => ⟨dom ++ '.' :: tld⟩
  | _ => domain

/-- `HTMLPageProcessor._is_same_domain` (the crawl always sets
`base_domain` before any use, so the `None → True` branch is dead). -/
def is_same_domain (base_domain : String) (url : String) : Bool :=
  extract_base_domain url == base_domain

/-- `HTMLPageProcessor._extract_filename_from_url`. -/
def extract_filename_from_url (url : String) : Option String :=
  let path := percentDecode (urlPath url).data
  let filename : String := ⟨((splitOnChar '/' path).getLast?).getD []⟩
  if pyIn "." filename && filename.data.length > 3 then some filename else none

/-- `url.split('/')[-1]`. -/
def lastSegmentAfterDash (url : String) : String :=
  ⟨((splitOnChar '/' url.data).getLast?).getD []⟩

/-! ### `HTMLPageProcessor._extract_filename_from_disposition`

`re.search` of `filename\*?=["\']?([^"\';\s]+)` and then
`filename\*?=([^;\s]+)`, with the regex's backtracking over the optional
quote made explicit; the capture is then stripped of whitespace and
quotes. -/

def dispAllowed1 (c : Char) : Bool :=
  !(c = Char.ofNat 34 || c = Char.ofNat 39 || c = ';' || c.isWhitespace)

def dispAllowed2 (c : Char) : Bool :=
  !(c = ';' || c.isWhitespace)

def matchDispositionAt (allowed : Char → Bool) (cs : List Char) : Option (List Char) :=
  if (cs.take 8).map Char.toLower = "filename".data then
    let rest := cs.drop 8
    let rest := if rest.head? = some '*' then rest.drop 1 else rest
    match rest with
    | '=' :: rest2 =>
      match rest2 with
      | [] => none
      | q :: rest3 =>
        if q = Char.ofNat 34 || q = Char.ofNat 39 then
          let cap := rest3.takeWhile allowed
          if !cap.isEmpty then some cap
          else
            -- backtrack: the optional quote is not consumed
            let cap2 := (q :: rest3).takeWhile allowed
            if !cap2.isEmpty then some cap2 else none
        else
          let cap := (q :: rest3).takeWhile allowed
          if !cap.isEmpty then some cap else none
    | _ => none
  else none

def searchDisposition (allowed : Char → Bool) : List Char → Option (List Char)
  | [] => none
  | c :: rest =>
    match matchDispositionAt allowed (c :: rest) with
    | some cap => some cap
    | none => searchDisposition allowed rest

def pyStripWs (cs : List Char) : List Char :=
  ((cs.dropWhile Char.isWhitespace).reverse.dropWhile Char.isWhitespace).reverse

def isQuoteChar (c : Char) : Bool := c = Char.ofNat 34 || c = Char.ofNat 39

def pyStripQuotes (cs : List Char) : List Char :=
  ((cs.dropWhile isQuoteChar).reverse.dropWhile isQuoteChar).reverse

def extract_filename_from_disposition (disposition : String) : Option String :=
  match searchDisposition dispAllowed1 disposition.data with
  | some cap => some ⟨pyStripQuotes (pyStripWs cap)⟩
  | none =>
    match searchDisposition dispAllowed2 disposition.data with
    | some cap => some ⟨pyStripQuotes (pyStripWs cap)⟩
    | none => none

/-- `HTMLPageProcessor._extract_year_from_link` (link text first if
truthy, else the URL). -/
def extract_year_from_link (link_text url : String) : Option Nat :=
  pyOrYear (extract_year_from_text link_text) (extract_year_from_text url)

/-! ### The crawl state machine (`HTMLPageProcessor.find_annual_reports`)

`BeautifulSoup` parsing is abstracted: a fetched page is its header list
plus its anchors (`href` attribute, stripped text, `title` attribute).
The network is an oracle `String → Option HTTPResponse` (a `None` models
`make_request` returning `None`); `fetched` logs every `make_request`
call the crawler issues and `processed` logs every URL that passed the
visited check, both for stating the claims. -/

structure Anchor where
  href : Option String
  text : String
  titleAttr : String
deriving DecidableEq, Repr

structure HTTPResponse where
  headers : List (String × String)
  anchors : List Anchor
deriving DecidableEq, Repr

/-- `requests`' headers are case-insensitive; `get` of a missing header
with default `''`. -/
def headerGet (headers : List (String × String)) (name : String) : String :=
  match headers.find? (fun h => pyLower h.1 == pyLower name) with
  | some h => h.2
  | none => ""

structure CrawlState where
  url_queue : List (String × Nat)
  visited_urls : List String
  found_documents : List ExtractedDocument
  base_domain : String
  fetched : List String
  processed : List String
deriving DecidableEq, Repr

def max_depth : Nat := 2

/-- `HTMLPageProcessor._check_headers_for_documents`: the documents it
appends for one response (no deduplication against found documents). -/
def check_headers_docs (response : HTTPResponse) (url : String) : List ExtractedDocument :=
  let dispDocs := ["Content-Disposition", "Content-Description"].foldl
    (fun acc header =>
      let header_value := headerGet response.headers header
      if !header_value.data.isEmpty then
        match extract_filename_from_disposition header_value with
        | some filename =>
          if !filename.data.isEmpty && is_annual_report none none (some filename) then
            acc ++ [⟨url, filename, "", extract_year_from_filename filename⟩]
          else acc
        | none => acc
      else acc) []
  let content_type := pyLower (headerGet response.headers "Content-Type")
  let ctDocs :=
    if pyIn "pdf" content_type || pyIn "excel" content_type ||
        pyIn "spreadsheet" content_type then
      let filename := pyOrStr (extract_filename_from_url url) (lastSegmentAfterDash url)
      if is_annual_report none (some url) (some filename) then
        [⟨url, filename, "",
          pyOrYear (extract_year_from_filename filename) (extract_year_from_text url)⟩]
      else []
    else []
  dispDocs ++ ctDocs

/-- `HTMLPageProcessor._process_document_link`. -/
def process_document_link (urljoin : String → String → String) (link : Anchor)
    (base_url file_type : String) (found : List ExtractedDocument) :
    Option ExtractedDocument :=
  match link.href with
  | none => none
  | some href =>
    if href.data.isEmpty then none  -- `if not href`
    else
      let full_url := urljoin base_url href
      -- skip if we have already found this document
      if found.any (fun doc => doc.url == full_url) then none
      else
        let year := extract_year_from_link link.text full_url
        if is_quarter_report (some link.text) (some full_url) then none
        else if is_annual_report (some link.text) (some full_url) none then
          let title := if !link.text.data.isEmpty then link.text else link.titleAttr
          let title :=
            if pyEndsWith (pyLower title) (pyLower file_type) then
              (⟨title.data.take (title.data.length - file_type.data.length)⟩ : String)
            else title
          some ⟨full_url, title, "", year⟩
        else none

/-- One link of the `_find_direct_documents` loops. -/
def docStep (urljoin : String → String → String) (base_url file_type : String)
    (s : CrawlState) (link : Anchor) : CrawlState :=
  match process_document_link urljoin link base_url file_type s.found_documents with
  | some doc => { s with found_documents := s.found_documents ++ [doc] }
  | none => s

/-- `HTMLPageProcessor._find_direct_documents` (PDF links first, then
XLSX links, in page order). -/
def find_direct_documents (urljoin : String → String → String) (base_url : String)
    (response : HTTPResponse) (st : CrawlState) : CrawlState :=
  let pdf_links := response.anchors.filter (fun a =>
    match a.href with
    | some h => pyEndsWith (pyLower h) ".pdf"
    | none => false)
  let xlsx_links := response.anchors.filter (fun a =>
    match a.href with
    | some h => pyEndsWith (pyLower h) ".xlsx"
    | none => false)
  let st := pdf_links.foldl (docStep urljoin base_url "PDF") st
  xlsx_links.foldl (docStep urljoin base_url "XLSX") st

/-- One anchor of the `_find_and_queue_links` loop. -/
def queueStep (urljoin : String → String → String) (base_url : String)
    (next_depth : Nat) (st : CrawlState) (link : Anchor) : CrawlState :=
  match link.href with
  | none => st
  | some href =>
    if href.data.isEmpty || link.text.data.isEmpty then st
    else if pyStartsWith (pyLower href) "mailto:" || pyStartsWith (pyLower href) "tel:" ||
        pyStartsWith (pyLower href) "javascript:" || pyStartsWith (pyLower href) "#" then st
    else if is_social_media_link href link.text then st
    else
      let link_url := urljoin base_url href
      if !is_same_domain st.base_domain link_url then st
      else if should_skip_url link_url then st
      else if st.visited_urls.contains link_url then st
      else if st.url_queue.any (fun p => p.1 == link_url) then st
      else { st with url_queue := st.url_queue ++ [(link_url, next_depth)] }

/-- `HTMLPageProcessor._find_and_queue_links`. -/
def find_and_queue_links (urljoin : String → String → String) (base_url : String)
    (anchors : List Anchor) (current_depth : Nat) (st : CrawlState) : CrawlState :=
  anchors.foldl (queueStep urljoin base_url (current_depth + 1)) st

/-- `HTMLPageProcessor._process_url_from_queue`.  Note the second
`make_request` performed by `_check_headers_for_documents` on the same
URL. -/
def process_url_from_queue (web : String → Option HTTPResponse)
    (urljoin : String → String → String) (st : CrawlState) (url : String)
    (current_depth : Nat) : CrawlState :=
  let st := { st with fetched := st.fetched ++ [url] }
  match web url with
  | none => st
  | some response =>
    -- `_check_headers_for_documents(url)` calls `make_request(url)` again
    let st := { st with fetched := st.fetched ++ [url] }
    let st := { st with
      found_documents := st.found_documents ++ check_headers_docs response url }
    let st := find_direct_documents urljoin url response st
    if current_depth < max_depth then
      find_and_queue_links urljoin url response.anchors current_depth st
    else st

/-- One iteration of the `while self.url_queue` loop of
`find_annual_reports`: pop, skip if visited, process, mark visited. -/
def crawl_step (web : String → Option HTTPResponse)
    (urljoin : String → String → String) (st : CrawlState) : CrawlState :=
  match st.url_queue with
  | [] => st
  | (current_url, current_depth) :: rest =>
    let st := { st with url_queue := rest }
    if st.visited_urls.contains current_url then st
    else
      let st := process_url_from_queue web urljoin st current_url current_depth
      { st with visited_urls := st.visited_urls ++ [current_url],
                processed := st.processed ++ [current_url] }

/-- The crawl loop with fuel (the loop terminates because the depth bound
and finite pages bound the queue; fuel makes the recursion structural). -/
def crawl_run (web : String → Option HTTPResponse)
    (urljoin : String → String → String) : Nat → CrawlState → CrawlState
  | 0, st => st
  | fuel + 1, st =>
    if st.url_queue.isEmpty then st
    else crawl_run web urljoin fuel (crawl_step web urljoin st)

/-- The initialization of `find_annual_reports`: clear state, set the base
domain from the seed, enqueue the seed at depth 0. -/
def init_crawl_state (reports_url : String) : CrawlState :=
  { url_queue := [(reports_url, 0)], visited_urls := [], found_documents := [],
    base_domain := extract_base_domain reports_url, fetched := [], processed := [] }

/-- `HTMLPageProcessor.find_annual_reports`, relative to a network oracle,
a `urljoin` resolver, and enough fuel. -/
def find_annual_reports (web : String → Option HTTPResponse)
    (urljoin : String → String → String) (fuel : Nat) (reports_url : String) :
    CrawlState :=
  crawl_run web urljoin fuel (init_crawl_state reports_url)

/-- Model of `urllib.parse.urljoin` adequate for the concrete webs below:
an absolute href resolves to itself, a relative one replaces the last
segment of the base.  All crawl theorems quantify over the resolver. -/
def urljoin_model (base url : String) : String :=
  if pyIn "://" url then url
  else ⟨(base.data.reverse.dropWhile (fun c => c ≠ '/')).reverse ++ url.data⟩

/-! ### Crawl invariants (for C1 and C7) -/

theorem docStep_core (urljoin : String → String → String) (b ft : String)
    (s : CrawlState) (a : Anchor) :
    (docStep urljoin b ft s a).url_queue = s.url_queue ∧
    (docStep urljoin b ft s a).visited_urls = s.visited_urls ∧
    (docStep urljoin b ft s a).base_domain = s.base_domain ∧
    (docStep urljoin b ft s a).fetched = s.fetched ∧
    (docStep urljoin b ft s a).processed = s.processed := by
  unfold docStep
  cases process_document_link urljoin a b ft s.found_documents <;>
    exact ⟨rfl, rfl, rfl, rfl, rfl⟩

theorem foldl_docStep_core (urljoin : String → String → String) (b ft : String) :
    ∀ (links : List Anchor) (s : CrawlState),
      ((links.foldl (docStep urljoin b ft) s).url_queue = s.url_queue) ∧
      ((links.foldl (docStep urljoin b ft) s).visited_urls = s.visited_urls) ∧
      ((links.foldl (docStep urljoin b ft) s).base_domain = s.base_domain) ∧
      ((links.foldl (docStep urljoin b ft) s).fetched = s.fetched) ∧
      ((links.foldl (docStep urljoin b ft) s).processed = s.processed) := by
  intro links
  induction links with
  | nil => intro s; exact ⟨rfl, rfl, rfl, rfl, rfl⟩
  | cons a as ih =>
    intro s
    rw [List.foldl_cons]
    obtain ⟨h1, h2, h3, h4, h5⟩ := docStep_core urljoin b ft s a
    obtain ⟨g1, g2, g3, g4, g5⟩ := ih (docStep urljoin b ft s a)
    exact ⟨g1.trans h1, g2.trans h2, g3.trans h3, g4.trans h4, g5.trans h5⟩

theorem find_direct_core (urljoin : String → String → String) (b : String)
    (response : HTTPResponse) (st : CrawlState) :
    ((find_direct_documents urljoin b response st).url_queue = st.url_queue) ∧
    ((find_direct_documents urljoin b response st).visited_urls = st.visited_urls) ∧
    ((find_direct_documents urljoin b response st).base_domain = st.base_domain) ∧
    ((find_direct_documents urljoin b response st).fetched = st.fetched) ∧
    ((find_direct_documents urljoin b response st).processed = st.processed) := by
  unfold find_direct_documents
  dsimp only
  obtain ⟨h1, h2, h3, h4, h5⟩ := foldl_docStep_core urljoin b "PDF"
    (response.anchors.filter (fun a =>
      match a.href with
      | some h => pyEndsWith (pyLower h) ".pdf"
      | none => false)) st
  obtain ⟨g1, g2, g3, g4, g5⟩ := foldl_docStep_core urljoin b "XLSX"
    (response.anchors.filter (fun a =>
      match a.href with
      | some h => pyEndsWith (pyLower h) ".xlsx"
      | none => false))
    ((response.anchors.filter (fun a =>
      match a.href with
      | some h => pyEndsWith (pyLower h) ".pdf"
      | none => false)).foldl (docStep urljoin b "PDF") st)
  exact ⟨g1.trans h1, g2.trans h2, g3.trans h3, g4.trans h4, g5.trans h5⟩

theorem queueStep_cases (urljoin : String → String → String) (b : String)
    (nd : Nat) (st : CrawlState) (a : Anchor) :
    queueStep urljoin b nd st a = st ∨
    ∃ u, is_same_domain st.base_domain u = true ∧
      queueStep urljoin b nd st a =
        { st with url_queue := st.url_queue ++ [(u, nd)] } := by
  unfold queueStep
  cases a.href with
  | none => exact Or.inl rfl
  | some href =>
    dsimp only
    split_ifs with h1 h2 h3 h4 h5 h6 h7
    · exact Or.inl rfl
    · exact Or.inl rfl
    · exact Or.inl rfl
    · exact Or.inl rfl
    · exact Or.inl rfl
    · exact Or.inl rfl
    · exact Or.inl rfl
    · refine Or.inr ⟨urljoin b href, ?_, rfl⟩
      simpa using h4

theorem foldl_queueStep_spec (urljoin : String → String → String) (b : String)
    (nd : Nat) :
    ∀ (links : List Anchor) (s : CrawlState),
      ((links.foldl (queueStep urljoin b nd) s).visited_urls = s.visited_urls) ∧
      ((links.foldl (queueStep urljoin b nd) s).found_documents = s.found_documents) ∧
      ((links.foldl (queueStep urljoin b nd) s).base_domain = s.base_domain) ∧
      ((links.foldl (queueStep urljoin b nd) s).fetched = s.fetched) ∧
      ((links.foldl (queueStep urljoin b nd) s).processed = s.processed) ∧
      (∀ p ∈ (links.foldl (queueStep urljoin b nd) s).url_queue,
        p ∈ s.url_queue ∨ extract_base_domain p.1 = s.base_domain) := by
  intro links
  induction links with
  | nil => intro s; exact ⟨rfl, rfl, rfl, rfl, rfl, fun p hp => Or.inl hp⟩
  | cons a as ih =>
    intro s
    rw [List.foldl_cons]
    rcases queueStep_cases urljoin b nd s a with heq | ⟨u, hu, heq⟩
    · rw [heq]
      exact ih s
    · rw [heq]
      obtain ⟨g1, g2, g3, g4, g5, g6⟩ :=
        ih { s with url_queue := s.url_queue ++ [(u, nd)] }
      refine ⟨g1, g2, g3, g4, g5, ?_⟩
      intro p hp
      rcases g6 p hp with hmem | hdom
      · rcases List.mem_append.mp hmem with h' | h'
        · exact Or.inl h'
        · right
          rw [List.mem_singleton.mp h']
          exact beq_iff_eq.mp hu
      · exact Or.inr hdom

theorem process_url_spec (web : String → Option HTTPResponse)
    (urljoin : String → String → String) (st : CrawlState) (url : String)
    (depth : Nat) :
    ((process_url_from_queue web urljoin st url depth).visited_urls = st.visited_urls) ∧
    ((process_url_from_queue web urljoin st url depth).processed = st.processed) ∧
    ((process_url_from_queue web urljoin st url depth).base_domain = st.base_domain) ∧
    ((process_url_from_queue web urljoin st url depth).fetched = st.fetched ++ [url] ∨
      (process_url_from_queue web urljoin st url depth).fetched = st.fetched ++ [url, url]) ∧
    (∀ p ∈ (process_url_from_queue web urljoin st url depth).url_queue,
      p ∈ st.url_queue ∨ extract_base_domain p.1 = st.base_domain) := by
  unfold process_url_from_queue
  cases web url with
  | none => exact ⟨rfl, rfl, rfl, Or.inl rfl, fun p hp => Or.inl hp⟩
  | some response =>
    dsimp only
    set st3 : CrawlState :=
      { st with
        fetched := (st.fetched ++ [url]) ++ [url],
        found_documents := st.found_documents ++ check_headers_docs response url }
      with hst3
    obtain ⟨d1, d2, d3, d4, d5⟩ := find_direct_core urljoin url response st3
    by_cases hd : depth < max_depth
    · rw [if_pos hd]
      unfold find_and_queue_links
      obtain ⟨q1, q2, q3, q4, q5, q6⟩ := foldl_queueStep_spec urljoin url (depth + 1)
        response.anchors (find_direct_documents urljoin url response st3)
      refine ⟨q1.trans d2, q5.trans d5, q3.trans d3, ?_, ?_⟩
      · right
        rw [q4, d4]
        simp [hst3]
      · intro p hp
        rcases q6 p hp with hmem | hdom
        · rw [d1] at hmem
          exact Or.inl hmem
        · exact Or.inr (hdom.trans d3)
    · rw [if_neg hd]
      refine ⟨d2, d5, d3, ?_, ?_⟩
      · right
        rw [d4]
        simp [hst3]
      · intro p hp
        rw [d1] at hp
        exact Or.inl hp

/-- The crawl invariant: the base domain is fixed, every URL is processed
at most once (and only after passing the visited check), every
`make_request` call is one of the at-most-two issued for a processed URL,
and every queued or fetched URL is inside the seed's registrable
domain. -/
def CrawlInv (base : String) (s : CrawlState) : Prop :=
  s.base_domain = base ∧
  s.processed.Nodup ∧
  (∀ u ∈ s.processed, u ∈ s.visited_urls) ∧
  (∀ u : String, s.fetched.count u ≤ 2 * s.processed.count u) ∧
  (∀ p ∈ s.url_queue, extract_base_domain p.1 = base) ∧
  (∀ u ∈ s.fetched, extract_base_domain u = base)

theorem crawl_step_inv {web : String → Option HTTPResponse}
    {urljoin : String → String → String} {base : String} {st : CrawlState}
    (h : CrawlInv base st) : CrawlInv base (crawl_step web urljoin st) := by
  obtain ⟨hb, hnd, hpv, hcnt, hq, hf⟩ := h
  unfold crawl_step
  match hqe : st.url_queue with
  | [] => exact ⟨hb, hnd, hpv, hcnt, by rw [hqe]; simp, hf⟩
  | (current_url, current_depth) :: rest =>
    have hqrest : ∀ p ∈ rest, extract_base_domain p.1 = base := by
      intro p hp
      exact hq p (by rw [hqe]; exact List.mem_cons_of_mem _ hp)
    have hqhead : extract_base_domain current_url = base :=
      hq (current_url, current_depth) (by rw [hqe]; exact List.mem_cons_self _ _)
    dsimp only
    by_cases hv : st.visited_urls.contains current_url = true
    · rw [if_pos hv]
      exact ⟨hb, hnd, hpv, hcnt, hqrest, hf⟩
    · rw [if_neg hv]
      have hvmem : current_url ∉ st.visited_urls := by
        intro hc
        exact hv (List.elem_eq_true_of_mem hc)
      obtain ⟨p1, p2, p3, p4, p5⟩ :=
        process_url_spec web urljoin { st with url_queue := rest } current_url current_depth
      have hpmem : current_url ∉ st.processed := fun hc => hvmem (hpv _ hc)
      refine ⟨p3.trans hb, ?_, ?_, ?_, ?_, ?_⟩
      · rw [p2]
        simp only [List.nodup_append, List.nodup_cons, List.nodup_nil]
        exact ⟨hnd, by simpa using hpmem⟩
      · intro u hu
        rw [p2] at hu
        rw [p1]
        rcases List.mem_append.mp hu with h' | h'
        · exact List.mem_append.mpr (Or.inl (hpv u h'))
        · exact List.mem_append.mpr (Or.inr h')
      · intro u
        rw [p2]
        have hcntp : st.processed.count current_url = 0 := List.count_eq_zero.mpr hpmem
        by_cases hu : u = current_url
        · subst hu
          have hfz : st.fetched.count u = 0 := by
            have := hcnt u
            omega
          rcases p4 with h4 | h4 <;> rw [h4] <;>
            simp [List.count_append, hfz, hcntp, List.count_cons]
        · have hne : ¬ (current_url = u) := fun hc => hu hc.symm
          rcases p4 with h4 | h4 <;> rw [h4] <;>
            simp [List.count_append, List.count_cons, List.count_singleton, hne] <;>
            [exact hcnt u; exact hcnt u]
      · intro p hp
        rcases p5 p hp with h' | h'
        · exact hqrest p h'
        · exact h'.trans hb
      · intro u hu
        rcases p4 with h4 | h4 <;> rw [h4] at hu <;> rcases List.mem_append.mp hu with h' | h'
        · exact hf u h'
        · rw [List.mem_singleton.mp h']
          exact hqhead
        · exact hf u h'
        · rcases List.mem_cons.mp h' with rfl | h''
          · exact hqhead
          · rw [List.mem_singleton.mp h'']
            exact hqhead

theorem crawl_run_inv {web : String → Option HTTPResponse}
    {urljoin : String → String → String} {base : String} :
    ∀ (fuel : Nat) {st : CrawlState}, CrawlInv base st →
      CrawlInv base (crawl_run web urljoin fuel st) := by
  intro fuel
  induction fuel with
  | zero => intro st h; exact h
  | succ n ih =>
    intro st h
    unfold crawl_run
    by_cases hq : st.url_queue.isEmpty = true
    · rw [if_pos hq]; exact h
    · rw [if_neg hq]; exact ih (crawl_step_inv h)

theorem find_annual_reports_inv (web : String → Option HTTPResponse)
    (urljoin : String → String → String) (fuel : Nat) (reports_url : String) :
    CrawlInv (extract_base_domain reports_url)
      (find_annual_reports web urljoin fuel reports_url) := by
  apply crawl_run_inv
  refine ⟨rfl, by simp [init_crawl_state], by simp [init_crawl_state],
    by simp [init_crawl_state], ?_, by simp [init_crawl_state]⟩
  intro p hp
  have hps : p = (reports_url, 0) := by simpa [init_crawl_state] using hp
  rw [hps]

/-! ### Claims C1, C7, C8 -/

/-- C7: a link is enqueued only if its registrable domain (last two
dot-separated labels of the host, port ignored) equals the seed's: every
URL ever queued or fetched, for any web, resolver, seed and fuel, has the
seed's registrable domain; an `evil.com` link is never enqueued or
fetched from an `example.com` seed, while `investors.example.com` is
eligible. -/
theorem domain_restriction (web : String → Option HTTPResponse)
    (urljoin : String → String → String) (fuel : Nat) (seed : String) :
    (∀ p ∈ (find_annual_reports web urljoin fuel seed).url_queue,
        extract_base_domain p.1 = extract_base_domain seed) ∧
    (∀ u ∈ (find_annual_reports web urljoin fuel seed).fetched,
        extract_base_domain u = extract_base_domain seed) ∧
    extract_base_domain "https://a.example.com/x" = "example.com" ∧
    is_same_domain "example.com" "https://evil.com/attack" = false ∧
    is_same_domain "example.com" "https://investors.example.com/y" = true := by
  obtain ⟨-, -, -, -, hq, hf⟩ := find_annual_reports_inv web urljoin fuel seed
  exact ⟨hq, hf, by decide, by decide, by decide⟩

/-- The concrete webs used by the witnesses and counterexamples below. -/
def seed_page_url : String := "https://example.com/reports"

def annual_pdf_url : String := "https://example.com/annual_report_2020.pdf"

/-- A seed page with no links and no interesting headers. -/
def web_single : String → Option HTTPResponse :=
  fun u => if u = seed_page_url then some ⟨[], []⟩ else none

/-- A seed page linking to an annual-report PDF whose own response carries
`Content-Type: application/pdf`. -/
def web_dup : String → Option HTTPResponse :=
  fun u =>
    if u = seed_page_url then
      some ⟨[], [⟨some annual_pdf_url, "Annual Report 2020", ""⟩]⟩
    else if u = annual_pdf_url then
      some ⟨[("Content-Type", "application/pdf")], []⟩
    else none

set_option maxRecDepth 10000 in
set_option maxHeartbeats 4000000 in
/-- Witness for C7: after one crawl iteration of a concrete web, the
queued link indeed carries the seed's registrable domain. -/
theorem domain_restriction_witness :
    extract_base_domain annual_pdf_url = extract_base_domain seed_page_url :=
  (domain_restriction web_dup urljoin_model 1 seed_page_url).1
    (annual_pdf_url, 1) (by decide)

set_option maxRecDepth 10000 in
set_option maxHeartbeats 1000000 in
/-- Counterexample to C1 as stated: processing the seed URL issues two
network requests for it (`_process_url_from_queue`'s own `make_request`
plus the one inside `_check_headers_for_documents`), so one URL is
fetched twice in a crawl. -/
theorem url_fetched_twice_counterexample :
    ((find_annual_reports web_single urljoin_model 2 seed_page_url).fetched).count
        seed_page_url = 2 ∧
    ¬ (((find_annual_reports web_single urljoin_model 2 seed_page_url).fetched).count
        seed_page_url ≤ 1) := by
  constructor
  · decide
  · decide

/-- C1 (amended): each URL is dequeued and processed at most once per
crawl (the visited set is checked before processing and updated right
after), and since each processing issues at most two `make_request`
calls for that URL, every URL is fetched at most twice per crawl. -/
theorem url_processed_once_fetched_at_most_twice (web : String → Option HTTPResponse)
    (urljoin : String → String → String) (fuel : Nat) (seed : String) :
    ((find_annual_reports web urljoin fuel seed).processed).Nodup ∧
    (∀ u ∈ (find_annual_reports web urljoin fuel seed).processed,
        u ∈ (find_annual_reports web urljoin fuel seed).visited_urls) ∧
    (∀ u : String,
        ((find_annual_reports web urljoin fuel seed).fetched).count u ≤ 2) := by
  obtain ⟨-, hnd, hpv, hcnt, -, -⟩ := find_annual_reports_inv web urljoin fuel seed
  refine ⟨hnd, hpv, ?_⟩
  intro u
  have h1 := hcnt u
  have h2 := List.nodup_iff_count_le_one.mp hnd u
  omega

set_option maxRecDepth 10000 in
set_option maxHeartbeats 4000000 in
/-- Counterexample to C8 as stated: the header-based discovery path never
checks the found-documents list, so re-processing the PDF URL (queued
from the seed page) appends a second entry with the same URL. -/
theorem duplicate_discovery_counterexample :
    ((find_annual_reports web_dup urljoin_model 3 seed_page_url).found_documents.map
        (fun d => d.url)) = [annual_pdf_url, annual_pdf_url] ∧
    ¬ ((find_annual_reports web_dup urljoin_model 3 seed_page_url).found_documents.map
        (fun d => d.url)).Nodup := by
  constructor
  · decide
  · decide

/-- C8 (amended): link-based discovery is idempotent — a link candidate
whose resolved URL already appears among the found documents is dropped —
but header-based discovery performs no such check, so duplicates can
still arise through it. -/
theorem link_discovery_deduplicates (urljoin : String → String → String)
    (a : Anchor) (base ft href : String) (found : List ExtractedDocument)
    (hhref : a.href = some href)
    (hdup : found.any (fun doc => doc.url == urljoin base href) = true) :
    process_document_link urljoin a base ft found = none := by
  unfold process_document_link
  rw [hhref]
  by_cases he : href.data.isEmpty
  · simp [he]
  · simp [he, hdup]

/-- Witness for the amended C8: a concrete already-found document makes
the link path drop the candidate. -/
theorem link_discovery_deduplicates_witness :
    process_document_link urljoin_model
        ⟨some annual_pdf_url, "Annual Report 2020", ""⟩ seed_page_url "PDF"
        [⟨annual_pdf_url, "Annual Report 2020", "", some 2020⟩] = none :=
  link_discovery_deduplicates urljoin_model _ seed_page_url "PDF" annual_pdf_url _
    rfl (by decide)

/-! ### C9: retry logic of HTTPClient.make_request -/

/-- Outcome of one `self.session.get(...)` attempt, as seen by the
`except` clauses of `make_request`: a successful response, a transient
failure (`ConnectionError` / `Timeout` / `ChunkedEncodingError` /
`ReadTimeout`), or any other `RequestException`. -/
inductive AttemptResult where
  | success (r : HTTPResponse)
  | transientError
  | requestError
deriving DecidableEq

/-- Observable outcome of `make_request`: the returned response (if any),
how many `session.get` attempts were made, the `time.sleep` durations in
order, and the updated `problematic_urls` set (as a list). -/
structure FetchResult where
  response : Option HTTPResponse
  attempts : Nat
  sleeps : List Nat
  problematic_urls : List String
deriving DecidableEq

def max_retries : Nat := 3

def base_delay : Nat := 1

/-- The `for attempt in range(max_retries)` loop of `make_request`.
`remaining` is the number of loop iterations left and `attempt` the
current index; the `oracle` says how attempt number `attempt` fares. -/
def requestLoop (oracle : Nat → AttemptResult) (url : String)
    (probs : List String) : Nat → Nat → List Nat → FetchResult
  | 0, attempt, sleeps => ⟨none, attempt, sleeps, probs⟩
  | remaining + 1, attempt, sleeps =>
    match oracle attempt with
    | AttemptResult.success r => ⟨some r, attempt + 1, sleeps, probs⟩
    | AttemptResult.transientError =>
        if attempt < max_retries - 1 then
          requestLoop oracle url probs remaining (attempt + 1)
            (sleeps ++ [base_delay * 2 ^ attempt])
        else
          ⟨none, attempt + 1, sleeps, probs ++ [url]⟩
    | AttemptResult.requestError => ⟨none, attempt + 1, sleeps, probs ++ [url]⟩

/-- `HTTPClient.make_request`: known-problematic URLs are skipped without
any attempt; otherwise the retry loop runs for `max_retries` iterations
starting at attempt 0 with no sleeps recorded yet. -/
def make_request (oracle : Nat → AttemptResult) (url : String)
    (probs : List String) : FetchResult :=
  if url ∈ probs then ⟨none, 0, [], probs⟩
  else requestLoop oracle url probs max_retries 0 []

/-- Counterexample to C9 as stated: with every attempt failing
transiently, `make_request` makes 3 attempts in total (2 retries, not 3)
and sleeps `[1, 2]` — there is no third backoff delay of 4, because the
last loop iteration gives up instead of sleeping. -/
theorem retry_schedule_counterexample :
    (make_request (fun _ => AttemptResult.transientError) "https://example.com/r" []).attempts
        = 3 ∧
    (make_request (fun _ => AttemptResult.transientError) "https://example.com/r" []).sleeps
        = [1, 2] ∧
    ¬ ((make_request (fun _ => AttemptResult.transientError) "https://example.com/r" []).sleeps
        = [1, 2, 4]) := by
  refine ⟨rfl, rfl, ?_⟩
  intro h
  simp [make_request, requestLoop, max_retries, base_delay] at h

/-- C9 (amended): on persistent transient failure `make_request` reports
definitive failure after exactly 3 attempts (i.e. 2 retries), sleeping
1 then 2 time-units between attempts, and marks the URL problematic;
for any outcome pattern it makes at most 3 attempts and its sleeps are
the first `attempts - 1` entries of the backoff schedule `[1, 2]`. -/
theorem retry_backoff_amended (oracle : Nat → AttemptResult) (url : String)
    (probs : List String) (hnp : url ∉ probs) :
    make_request (fun _ => AttemptResult.transientError) url probs =
      ⟨none, 3, [1, 2], probs ++ [url]⟩ ∧
    (make_request oracle url probs).attempts ≤ 3 ∧
    (make_request oracle url probs).sleeps =
      [1, 2].take ((make_request oracle url probs).attempts - 1) := by
  refine ⟨?_, ?_⟩
  · simp [make_request, requestLoop, hnp, max_retries, base_delay]
  · rcases h0 : oracle 0 with r0 | - | -
    · simp [make_request, requestLoop, hnp, h0, max_retries, base_delay]
    · rcases h1 : oracle 1 with r1 | - | -
      · simp [make_request, requestLoop, hnp, h0, h1, max_retries, base_delay]
      · rcases h2 : oracle 2 with r2 | - | -
        · simp [make_request, requestLoop, hnp, h0, h1, h2, max_retries, base_delay]
        · simp [make_request, requestLoop, hnp, h0, h1, h2, max_retries, base_delay]
        · simp [make_request, requestLoop, hnp, h0, h1, h2, max_retries, base_delay]
      · simp [make_request, requestLoop, hnp, h0, h1, max_retries, base_delay]
    · simp [make_request, requestLoop, hnp, h0, max_retries, base_delay]

/-- Witness for the amended C9 at a concrete URL and empty
problematic-set. -/
theorem retry_backoff_amended_witness :
    make_request (fun _ => AttemptResult.transientError) "https://example.com/r2" [] =
      ⟨none, 3, [1, 2], ["https://example.com/r2"]⟩ := by
  have h := retry_backoff_amended (fun _ => AttemptResult.transientError)
      "https://example.com/r2" [] (by decide)
  simpa using h.1

end Fiscal
